import Mathlib

set_option maxRecDepth 100000

/-!
# ASON codec core: a shallow embedding of `SmartCompressor`

This file embeds the compression/decompression engine of the ASON format
(`nodejs-compressor/src/compressor/SmartCompressor.js`) in Lean 4 and proves
properties of the embedding.

Modelling conventions:
* JavaScript strings are modelled as `List Char` (`JStr`); every string
  operation the source uses (`trim`, `slice`, `indexOf`, `split`, …) is
  re-implemented explicitly with JS semantics.  Whitespace is modelled as
  space/tab/newline/carriage-return (the characters the format can contain).
* JavaScript values are the nested inductive `Val`; JS numbers are modelled
  as integers (every numeric literal the format round-trips in this
  development is integral; non-integral floats are outside the model).
* JS `Map`s are association lists in insertion order (`JMap`), matching the
  iteration-order semantics the source relies on.
* Thrown exceptions (`JSON.parse` on malformed text) are modelled with
  `Except`; mutable per-call state is threaded explicitly.
* Recursions that the source drives through dynamic lookups are given a
  structural fuel parameter; every entry point supplies fuel that is amply
  sufficient for the inputs considered, so the embedding is extensionally
  faithful (and computable by the kernel).
-/

/-! ## JavaScript string primitives over `List Char` -/

abbrev JStr := List Char

/-- Convert a Lean string literal to the `List Char` model. -/
def jstr (s : String) : JStr := s.toList

/-- JS whitespace (`\s`), restricted to the characters this format manipulates. -/
def jsIsSpace (c : Char) : Bool :=
  c = ' ' ∨ c = '\t' ∨ c = '\n' ∨ c = '\r'

/-- JS `\d`. -/
def jsIsDigit (c : Char) : Bool := '0' ≤ c ∧ c ≤ '9'

/-- JS `\w` (word character). -/
def jsIsWordChar (c : Char) : Bool :=
  ('a' ≤ c ∧ c ≤ 'z') ∨ ('A' ≤ c ∧ c ≤ 'Z') ∨ jsIsDigit c ∨ c = '_'

/-- `String.prototype.trimStart`. -/
def jsTrimStart (s : JStr) : JStr := s.dropWhile (fun c => jsIsSpace c)

/-- `String.prototype.trimEnd` (recursion from the left so that it unfolds). -/
def jsTrimEnd : JStr → JStr
  | [] => []
  | c :: rest =>
      let r := jsTrimEnd rest
      if r = [] ∧ jsIsSpace c then [] else c :: r

/-- `String.prototype.trim`. -/
def jsTrim (s : JStr) : JStr := jsTrimEnd (jsTrimStart s)

/-- `String.prototype.startsWith`. -/
def jsStartsWith : JStr → JStr → Bool
  | [], _ => true
  | _ :: _, [] => false
  | p :: ps, c :: cs => p = c ∧ jsStartsWith ps cs

/-- `String.prototype.endsWith`. -/
def jsEndsWith (pat s : JStr) : Bool := jsStartsWith pat.reverse s.reverse

/-- `String.prototype.includes`. -/
def jsIncludes (pat : JStr) : JStr → Bool
  | [] => jsStartsWith pat []
  | c :: cs => jsStartsWith pat (c :: cs) || jsIncludes pat cs

/-- `String.prototype.indexOf` for a single character (−1 when absent). -/
def jsIndexOf (t : Char) : JStr → Int
  | [] => -1
  | c :: cs => if c = t then 0 else
      let r := jsIndexOf t cs
      if r = -1 then -1 else r + 1

/-- `s.slice(a)` for a non-negative start index. -/
def jsSliceFrom (s : JStr) (a : Nat) : JStr := s.drop a

/-- `s.slice(a, b)` for non-negative indices. -/
def jsSliceRange (s : JStr) (a b : Nat) : JStr := (s.take b).drop a

/-- `s.split(sep)` for a single-character separator. -/
def jsSplit (sep : Char) : JStr → List JStr
  | [] => [[]]
  | c :: cs =>
      if c = sep then [] :: jsSplit sep cs
      else
        match jsSplit sep cs with
        | r :: rs => (c :: r) :: rs
        | [] => [[c]]

/-- `arr.join(sep)` for a list of strings and single-character separator. -/
def jsJoin (sep : Char) : List JStr → JStr
  | [] => []
  | [s] => s
  | s :: rest => s ++ sep :: jsJoin sep rest

/-- `" ".repeat(n)`-style repetition of one character. -/
def jsRepeatChar (c : Char) : Nat → JStr
  | 0 => []
  | n + 1 => c :: jsRepeatChar c n

/-- Decimal digits of a natural number, with structural fuel (the fuel is the
number itself plus one, which always suffices since `n / 10 < n` for `n ≥ 1`). -/
def natReprAux : Nat → Nat → JStr
  | 0, _ => []
  | fuel + 1, n =>
      let d : Char := Char.ofNat (48 + n % 10)
      if n < 10 then [d] else natReprAux fuel (n / 10) ++ [d]

/-- `String(n)` for `n : Nat`. -/
def natRepr (n : Nat) : JStr := natReprAux (n + 1) n

/-- `String(n)` for an integer (JS rendering of an integral number). -/
def intRepr (n : Int) : JStr :=
  if n < 0 then '-' :: natRepr n.natAbs else natRepr n.natAbs

/-- Numeric value of a digit string (helper for `parseInt`/`parseFloat`). -/
def natOfDigits : JStr → Nat → Nat
  | [], acc => acc
  | c :: cs, acc => natOfDigits cs (acc * 10 + (c.toNat - 48))

/-- `parseInt(s)`: leading-digit prefix with optional sign (0 when empty, as
the source only applies it to digit strings, where `NaN` is unreachable). -/
def jsParseInt (s : JStr) : Int :=
  match s with
  | '-' :: rest => - (natOfDigits (rest.takeWhile (fun c => jsIsDigit c)) 0 : Int)
  | rest => (natOfDigits (rest.takeWhile (fun c => jsIsDigit c)) 0 : Int)

/-- The test `/^-?\d+\.?\d*$/` used by the encoder and the scalar parser. -/
def looksLikeNumber (s : JStr) : Bool :=
  let body := match s with
    | '-' :: rest => rest
    | rest => rest
  let ds := body.takeWhile (fun c => jsIsDigit c)
  let rest := body.dropWhile (fun c => jsIsDigit c)
  decide (ds ≠ []) &&
    match rest with
    | [] => true
    | '.' :: frac => frac.all (fun c => jsIsDigit c)
    | _ => false

/-! ## The value model -/

/-- JSON-like values: the tagged union all components operate on.  Mappings
preserve key insertion order; numbers are modelled as integers. -/
inductive Val where
  | null
  | bool (b : Bool)
  | num (n : Int)
  | str (s : JStr)
  | arr (items : List Val)
  | obj (fields : List (JStr × Val))
deriving Repr

/-- `obj[key]` (first matching field, `undefined ↦ none`). -/
def objGet : List (JStr × Val) → JStr → Option Val
  | [], _ => none
  | (k, v) :: rest, key => if k = key then some v else objGet rest key

/-- `obj[key] = v`: update-in-place if the key exists, else append. -/
def objSet : List (JStr × Val) → JStr → Val → List (JStr × Val)
  | [], key, v => [(key, v)]
  | (k, w) :: rest, key, v =>
      if k = key then (k, v) :: rest else (k, w) :: objSet rest key v

/-- `Object.keys(obj)`. -/
def objKeys (fields : List (JStr × Val)) : List JStr := fields.map (·.1)

/-- JSON string escaping (`JSON.stringify` on a string; the control characters
the format manipulates are covered, other characters pass through raw). -/
def jsonEscape : JStr → JStr
  | [] => []
  | c :: rest =>
      (if c = '"' then ['\\', '"']
       else if c = '\\' then ['\\', '\\']
       else if c = '\n' then ['\\', 'n']
       else if c = '\r' then ['\\', 'r']
       else if c = '\t' then ['\\', 't']
       else [c]) ++ jsonEscape rest

/-- `JSON.stringify` on a string value. -/
def jsonQuote (s : JStr) : JStr := '"' :: jsonEscape s ++ ['"']

mutual
/-- `JSON.stringify(v)` (no spacing), used by the source as the canonical
structural-equality key for object aliasing. -/
def jsonStringify : Val → JStr
  | .null => jstr "null"
  | .bool b => if b then jstr "true" else jstr "false"
  | .num n => intRepr n
  | .str s => jsonQuote s
  | .arr items => '[' :: jsonStringifyItems items ++ [']']
  | .obj fields => '{' :: jsonStringifyFields fields ++ ['}']

def jsonStringifyItems : List Val → JStr
  | [] => []
  | [v] => jsonStringify v
  | v :: rest => jsonStringify v ++ ',' :: jsonStringifyItems rest

def jsonStringifyFields : List (JStr × Val) → JStr
  | [] => []
  | [(k, v)] => jsonQuote k ++ ':' :: jsonStringify v
  | (k, v) :: rest => jsonQuote k ++ ':' :: jsonStringify v ++ ',' :: jsonStringifyFields rest
end

mutual
/-- Size of a value tree (used to provision fuel for the encoder passes). -/
def valSize : Val → Nat
  | .null => 1
  | .bool _ => 1
  | .num _ => 1
  | .str _ => 1
  | .arr items => 1 + valSizeList items
  | .obj fields => 1 + valSizeFields fields

def valSizeList : List Val → Nat
  | [] => 0
  | v :: rest => valSize v + valSizeList rest

def valSizeFields : List (JStr × Val) → Nat
  | [] => 0
  | (_, v) :: rest => valSize v + valSizeFields rest
end

/-! ## Maps in insertion order -/

/-- JS `Map` with string keys: association list in insertion order. -/
abbrev JMap (α : Type) := List (JStr × α)

/-- `map.get(k)` (first match). -/
def jmGet {α : Type} : JMap α → JStr → Option α
  | [], _ => none
  | (k, v) :: rest, key => if k = key then some v else jmGet rest key

/-- `map.set(k, v)`: overwrite in place, else append (insertion order kept). -/
def jmSet {α : Type} : JMap α → JStr → α → JMap α
  | [], key, v => [(key, v)]
  | (k, w) :: rest, key, v =>
      if k = key then (k, v) :: rest else (k, w) :: jmSet rest key v

/-- `map.has(k)`. -/
def jmHas {α : Type} (m : JMap α) (key : JStr) : Bool := (jmGet m key).isSome

/-- `map.set(k, (map.get(k) || 0) + 1)`. -/
def jmIncr (m : JMap Nat) (key : JStr) : JMap Nat :=
  jmSet m key ((jmGet m key).getD 0 + 1)

/-! ## Sorting (JS `Array.prototype.sort` is stable; insertion sort is the
stable sort used throughout this embedding) -/

/-- Insert `x` before the first element it is `le` to (stable insertion). -/
def insertSorted {α : Type} (le : α → α → Bool) (x : α) : List α → List α
  | [] => [x]
  | y :: rest => if le x y then x :: y :: rest else y :: insertSorted le x rest

/-- Stable sort by the boolean relation `le`. -/
def sortBy {α : Type} (le : α → α → Bool) (l : List α) : List α :=
  l.foldr (insertSorted le) []

/-- Lexicographic `≤` on strings (JS default sort-order comparison). -/
def jstrLeB : JStr → JStr → Bool
  | [], _ => true
  | _ :: _, [] => false
  | a :: as, b :: bs => if a = b then jstrLeB as bs else decide (a < b)

/-! ## Configuration (`SmartCompressor` constructor options) -/

/-- Codec configuration: `{indent, delimiter, useReferences, useDictionary}`.
The constructor clamps `indent` to at least 1; the delimiter is modelled as a
single character (the default `','`). -/
structure Config where
  indent : Nat := 1
  delimiter : Char := ','
  useReferences : Bool := true
  useDictionary : Bool := true
deriving Repr

def defaultCfg : Config := {}

/-- `_sp(level)`: indentation string. -/
def sp (cfg : Config) (level : Nat) : JStr :=
  if cfg.indent = 0 then [] else jsRepeatChar ' ' (cfg.indent * level)

/-! ## Fingerprinting & analysis -/

/-- `item && typeof item === "object" && !Array.isArray(item)`. -/
def isPlainObject : Val → Bool
  | .obj _ => true
  | _ => false

/-- Result of `_getMostCommonKeys`: the most frequent key signature's original
key order, its frequency, and the array length (the source returns the ratio
`maxCount / arr.length`; comparisons against the 0.6 threshold are modelled
exactly on the integers). -/
structure CommonKeys where
  keys : List JStr
  maxCount : Nat
  total : Nat
deriving Repr

/-- `_getMostCommonKeys(arr)`. -/
def getMostCommonKeys (arr : List Val) : CommonKeys :=
  let acc := arr.foldl
    (fun (acc : JMap Nat × JMap (List JStr)) item =>
      let keys := match item with
        | .obj fs => objKeys fs
        | _ => []
      let sig := jsJoin '|' (sortBy jstrLeB keys)
      let counts := jmIncr acc.1 sig
      let keysMap := if jmHas acc.2 sig then acc.2 else jmSet acc.2 sig keys
      (counts, keysMap))
    ([], [])
  let best := acc.1.foldl
    (fun (best : JStr × Nat) (p : JStr × Nat) =>
      if p.2 > best.2 then p else best)
    ([], 0)
  { keys := (jmGet acc.2 best.1).getD []
    maxCount := best.2
    total := arr.length }

/-- `_isUniformObjects(arr)`: non-empty, all plain objects, dominant key
signature covering at least 60 % of the elements. -/
def isUniformObjects (arr : List Val) : Bool :=
  if arr.length = 0 then false
  else if ¬ arr.all (fun item => isPlainObject item) then false
  else
    let ck := getMostCommonKeys arr
    -- uniformity ≥ 0.6  ⟺  5 * maxCount ≥ 3 * total
    5 * ck.maxCount ≥ 3 * ck.total

/-- Per-signature pattern data accumulated by `_autoDetectPatterns`. -/
structure PatInfo where
  keys : List JStr
  count : Nat
deriving Repr

/-- A structure reference: `{name, keys, count}`. -/
structure RefInfo where
  name : JStr
  keys : List JStr
  count : Nat
deriving Repr

/-- Recursive accumulation of `_autoDetectPatterns` (the `path` parameter of
the source is only ever consulted as `path.length === 0`, i.e. to detect the
root invocation; the root step is `autoDetectPatterns` below).  The recursion
into matched arrays goes through key lookups (`obj[key]`), hence the
structural fuel; `compress` provisions `valSize + 1`, which always suffices
since every recursive call descends into a strict subvalue. -/
def autoDetectAux : Nat → Val → JMap PatInfo → JMap PatInfo
  | 0, _, patterns => patterns
  | fuel + 1, v, patterns =>
      match v with
      | .arr items =>
          if isUniformObjects items ∧ items.length > 0 then
            let keys := (getMostCommonKeys items).keys
            let signature := jsJoin '|' keys
            let patterns := if jmHas patterns signature then patterns
              else jmSet patterns signature ⟨keys, 0⟩
            let patterns := match jmGet patterns signature with
              | some info => jmSet patterns signature ⟨info.keys, info.count + 1⟩
              | none => patterns
            -- for (const obj of data) for (const key of keys) recurse(obj[key])
            items.foldl
              (fun pats item =>
                keys.foldl
                  (fun pats k =>
                    match item with
                    | .obj fs =>
                        match objGet fs k with
                        | some w => autoDetectAux fuel w pats
                        | none => pats
                    | _ => pats)
                  pats)
              patterns
          else
            items.foldl (fun pats item => autoDetectAux fuel item pats) patterns
      | .obj fields =>
          fields.foldl (fun pats kv => autoDetectAux fuel kv.2 pats) patterns
      | _ => patterns

/-- `_autoDetectPatterns(data)` followed by the root step: promote every
signature with count ≥ 3 to a `StructureRef` named `$0, $1, …` in map order. -/
def autoDetectPatterns (v : Val) : JMap RefInfo :=
  let patterns := autoDetectAux (valSize v + 1) v []
  let rec promote : JMap PatInfo → Nat → JMap RefInfo
    | [], _ => []
    | (sig, info) :: rest, ctr =>
        if info.count ≥ 3 then
          (sig, ⟨'$' :: natRepr ctr, info.keys, info.count⟩) :: promote rest (ctr + 1)
        else promote rest ctr
  promote patterns 0

/-- State threaded through `_detectRepeatedObjects`: occurrence counts keyed
by `JSON.stringify` (with a representative value, standing for the
`JSON.parse` of the key), the alias table, and the alias counter. -/
structure DROState where
  counts : List (JStr × Nat × Val)
  aliases : List (JStr × JStr × Val)
  aliasCounter : Nat
deriving Repr

/-- Count one candidate occurrence (`objectCounts.set(jsonStr, +1)`). -/
def droCount (st : DROState) (jsonStr : JStr) (v : Val) : DROState :=
  let rec bump : List (JStr × Nat × Val) → List (JStr × Nat × Val)
    | [] => [(jsonStr, 1, v)]
    | (k, n, w) :: rest =>
        if k = jsonStr then (k, n + 1, w) :: rest else (k, n, w) :: bump rest
  { st with counts := bump st.counts }

/-- The block at the end of every `_detectRepeatedObjects` invocation: when
some count exists and no alias has been created yet, promote every count ≥ 2
to an alias `&obj0, &obj1, …` (in map order). -/
def droFinish (st : DROState) : DROState :=
  if st.counts.length > 0 ∧ st.aliases.length = 0 then
    let rec promote : List (JStr × Nat × Val) → List (JStr × JStr × Val) → Nat →
        List (JStr × JStr × Val) × Nat
      | [], acc, ctr => (acc, ctr)
      | (jsonStr, count, v) :: rest, acc, ctr =>
          if count ≥ 2 then
            promote rest (acc ++ [(jsonStr, ('&' :: 'o' :: 'b' :: 'j' :: natRepr ctr), v)]) (ctr + 1)
          else promote rest acc ctr
    let p := promote st.counts st.aliases st.aliasCounter
    { st with aliases := p.1, aliasCounter := p.2 }
  else st

mutual
/-- `_detectRepeatedObjects(data, objectCounts)`: candidate counting plus the
(mid-traversal) alias-promotion block that closes every invocation. -/
def detectRepeatedObjectsVal : Val → DROState → DROState
  | .arr items, st => droFinish (detectRepeatedObjectsList items st)
  | .obj fields, st =>
      let keys := objKeys fields
      let st :=
        if keys.length > 0 ∧ keys.length ≤ 3 then
          let hasComplexNested := fields.any fun kv =>
            match kv.2 with
            | .arr xs => xs.length > 0
            | .obj fs => fs.length > 0
            | _ => false
          if ¬ hasComplexNested then
            droCount st (jsonStringify (.obj fields)) (.obj fields)
          else st
        else st
      droFinish (detectRepeatedObjectsFields fields st)
  | _, st => droFinish st

def detectRepeatedObjectsList : List Val → DROState → DROState
  | [], st => st
  | v :: rest, st => detectRepeatedObjectsList rest (detectRepeatedObjectsVal v st)

def detectRepeatedObjectsFields : List (JStr × Val) → DROState → DROState
  | [], st => st
  | (_, v) :: rest, st => detectRepeatedObjectsFields rest (detectRepeatedObjectsVal v st)
end

/-- The alias table produced by the repeated-object pass on a fresh call. -/
def detectRepeatedObjects (v : Val) : List (JStr × JStr × Val) :=
  (detectRepeatedObjectsVal v ⟨[], [], 0⟩).aliases

/-- The per-value counting step of `_detectFrequentValues`:
`if (typeof val === "string" && val.length >= 5) count(val)`. -/
def dfvCountStep (m : JMap Nat) : Val → JMap Nat
  | .str s => if 5 ≤ s.length then jmIncr m s else m
  | _ => m

mutual
/-- String-value frequency counting of `_detectFrequentValues`: every string
of length ≥ 5 occurring as an object value, in traversal order. -/
def dfvVal : Val → JMap Nat → JMap Nat
  | .arr items, m => dfvList items m
  | .obj fields, m => dfvFields fields m
  | _, m => m

def dfvList : List Val → JMap Nat → JMap Nat
  | [], m => m
  | v :: rest, m => dfvList rest (dfvVal v m)

def dfvFields : List (JStr × Val) → JMap Nat → JMap Nat
  | [], m => m
  | (_, v) :: rest, m => dfvFields rest (dfvVal v (dfvCountStep m v))
end

/-- A dictionary candidate `{value, count, savings}`. -/
structure DictCand where
  value : JStr
  count : Nat
  savings : Int
deriving Repr

/-- The savings estimate of the inline-first cost model
(`aliasLen = 3`, `totalWithDict = length + aliasLen + (aliasLen−1)·(count−1)`). -/
def dictSavings (len count : Nat) : Int :=
  let aliasLen : Int := 3
  let totalOriginal : Int := len * count
  let totalWithDict : Int := len + aliasLen + (aliasLen - 1) * ((count : Int) - 1)
  totalOriginal - totalWithDict

/-- Candidate collection: counts ≥ 2 with strictly positive savings, in map
order. -/
def dictCandidates : JMap Nat → List DictCand
  | [] => []
  | (value, count) :: rest =>
      if count ≥ 2 then
        let savings := dictSavings value.length count
        if savings > 0 then ⟨value, count, savings⟩ :: dictCandidates rest
        else dictCandidates rest
      else dictCandidates rest

/-- Tag assignment `#0, #1, …` in list order. -/
def assignTags : List DictCand → Nat → JMap JStr
  | [], _ => []
  | c :: rest, ctr => (c.value, '#' :: natRepr ctr) :: assignTags rest (ctr + 1)

/-- Descending-savings comparison used to sort candidates (stable, like JS
`sort((a, b) => b.savings - a.savings)`). -/
def savingsGe (a b : DictCand) : Bool := decide (b.savings ≤ a.savings)

/-- `_detectFrequentValues(data)` on a fresh call: the value dictionary,
tags assigned by descending savings. -/
def detectFrequentValues (v : Val) : JMap JStr :=
  let counts := dfvVal v []
  assignTags (sortBy savingsGe (dictCandidates counts)) 0

/-! ## Encoder -/

/-- The three analysis tables consumed by the encoder.  Object aliases are
keyed by `JSON.stringify` of the object; a representative value (standing for
`JSON.parse` of the key, which is the identity on this model) is stored
alongside. -/
structure Tables where
  structureRefs : JMap RefInfo
  objectAliases : List (JStr × JStr × Val)
  valueDictionary : JMap JStr
deriving Repr

/-- `this.objectAliases.get(jsonStr)` (alias token only). -/
def aliasGet (aliases : List (JStr × JStr × Val)) (jsonStr : JStr) : Option JStr :=
  match aliases with
  | [] => none
  | (k, name, _) :: rest => if k = jsonStr then some name else aliasGet rest jsonStr

/-- `/[\n\r\t]/.test(s)`. -/
def hasCtl (s : JStr) : Bool := s.any fun c => c = '\n' ∨ c = '\r' ∨ c = '\t'

/-- The quoting test of `_serialize` for plain strings. -/
def serNeedsQuotes (s : JStr) : Bool :=
  hasCtl s ∨ s = [] ∨ s = jstr "null" ∨ s = jstr "true" ∨ s = jstr "false" ∨
    looksLikeNumber s

/-- The quoting test of `_escVal` in the dictionary (inline-first) branch:
`` new RegExp(`[${delimiter}\n\r\t]`) `` plus the literal/number cases. -/
def escNeedsQuotesDict (delim : Char) (s : JStr) : Bool :=
  (s.any fun c => c = delim ∨ c = '\n' ∨ c = '\r' ∨ c = '\t') ∨ s = [] ∨
    s = jstr "null" ∨ s = jstr "true" ∨ s = jstr "false" ∨ looksLikeNumber s

/-- The quoting test of `_escVal` for plain strings (also escapes quotes):
`` new RegExp(`[${delimiter}\n\r\t"]`) `` plus the literal/number cases. -/
def escNeedsQuotes (delim : Char) (s : JStr) : Bool :=
  (s.any fun c => c = delim ∨ c = '\n' ∨ c = '\r' ∨ c = '\t' ∨ c = '"') ∨ s = [] ∨
    s = jstr "null" ∨ s = jstr "true" ∨ s = jstr "false" ∨ looksLikeNumber s

/-- `valueFirstOccurrence.has(v)` over the threaded first-occurrence set. -/
def memJ (st : List JStr) (s : JStr) : Bool := st.any (· = s)

/-- The path-flattening loop of `_serialize`: while the current value is a
non-array mapping with exactly one key and is not itself an alias target,
fold the key into the dotted path and descend. -/
def flattenPath (tb : Tables) : JStr → Val → JStr × Val
  | path, .obj [kv] =>
      if (aliasGet tb.objectAliases (jsonStringify (.obj [kv]))).isSome then
        (path, .obj [kv])
      else flattenPath tb (path ++ '.' :: kv.1) kv.2
  | path, v => (path, v)

/-- `v === null || typeof v !== "object"` (with `undefined ↦ true`). -/
def isPrimitiveOpt : Option Val → Bool
  | none => true
  | some (.arr _) => false
  | some (.obj _) => false
  | some _ => true

/-- `v === null || typeof v !== "object"` for a present value. -/
def isPrimitive : Val → Bool
  | .arr _ => false
  | .obj _ => false
  | _ => true

mutual
/-- `_serialize(val, level)`.  The first-occurrence set of the inline-first
rule is threaded as explicit state; the structural fuel covers the recursion
through key lookups (CSV cells) and path flattening, and `compress`
provisions more than the tree size, which always suffices. -/
def serialize (cfg : Config) (tb : Tables) :
    Nat → Val → Nat → List JStr → JStr × List JStr
  | 0, _, _, st => ([], st)
  | fuel + 1, val, level, st =>
      let indent := sp cfg level
      match val with
      | .null => (jstr "null", st)
      | .bool b => (if b then jstr "true" else jstr "false", st)
      | .num n => (intRepr n, st)
      | .str s =>
          match jmGet tb.valueDictionary s with
          | some dictAlias =>
              if cfg.useDictionary then
                if ¬ memJ st s then
                  -- first occurrence: value with inline tag
                  let st := st ++ [s]
                  if serNeedsQuotes s then (jsonQuote s ++ ' ' :: dictAlias, st)
                  else (s ++ ' ' :: dictAlias, st)
                else (dictAlias, st)
              else
                (if serNeedsQuotes s then jsonQuote s else s, st)
          | none =>
              (if serNeedsQuotes s then jsonQuote s else s, st)
      | .arr items =>
          if items.length = 0 then (jstr "[]", st)
          else if isUniformObjects items then
            let keys := (getMostCommonKeys items).keys
            let signature := jsJoin '|' keys
            let ref := jmGet tb.structureRefs signature
            let allPrimitive := items.all fun o =>
              keys.all fun k =>
                match o with
                | .obj fs => isPrimitiveOpt (objGet fs k)
                | _ => true
            let tableOk := allPrimitive ∧ items.all fun o =>
              match o with
              | .obj fs => (objKeys fs).all fun k => keys.any (· = k)
              | _ => true
            if tableOk then
              let marker := match ref with
                | some r => '$' :: r.name
                | none => '@' :: jsJoin cfg.delimiter keys
              let hdr := '[' :: natRepr items.length ++ ']' :: marker ++ ['\n']
              let rows := items.foldl
                (fun (acc : JStr × List JStr) o =>
                  let row := keys.foldl
                    (fun (racc : List JStr × List JStr) k =>
                      let cell := match o with
                        | .obj fs => escVal cfg tb fuel (objGet fs k) racc.2
                        | _ => escVal cfg tb fuel none racc.2
                      (racc.1 ++ [cell.1], cell.2))
                    ([], acc.2)
                  (acc.1 ++ indent ++ jsJoin cfg.delimiter row.1 ++ ['\n'], row.2))
                (hdr, st)
              (jsTrimEnd rows.1, rows.2)
            else
              -- uniform array with complex values: list block with nested keys
              let res := items.foldl
                (fun (acc : JStr × List JStr) o =>
                  let acc := (acc.1 ++ indent ++ jstr "- \n", acc.2)
                  match o with
                  | .obj fs =>
                      fs.foldl
                        (fun (a : JStr × List JStr) kv =>
                          let sv := serialize cfg tb fuel kv.2 (level + 2) a.2
                          -- both source branches append identically
                          (a.1 ++ sp cfg (level + 1) ++ kv.1 ++ ':' :: sv.1 ++ ['\n'], sv.2))
                        acc
                  | _ => acc)
                (jstr "\n", st)
              (jsTrimEnd res.1, res.2)
          else if items.all (fun v => isPrimitive v) then
            -- primitives: [v1,v2] inline form
            let cells := items.foldl
              (fun (acc : List JStr × List JStr) v =>
                let c := escVal cfg tb fuel (some v) acc.2
                (acc.1 ++ [c.1], c.2))
              ([], st)
            ('[' :: jsJoin cfg.delimiter cells.1 ++ [']'], cells.2)
          else
            -- complex array
            let res := items.foldl
              (fun (acc : JStr × List JStr) item =>
                let sv := serialize cfg tb fuel item (level + 1) acc.2
                (acc.1 ++ indent ++ jstr "- " ++ jsTrim sv.1 ++ ['\n'], sv.2))
              (jstr "\n", st)
            (jsTrimEnd res.1, res.2)
      | .obj fields =>
          if fields.length = 0 then (jstr "{}", st)
          else
            let jsonStr := jsonStringify (.obj fields)
            match aliasGet tb.objectAliases jsonStr with
            | some aliasTok => (aliasTok, st)
            | none =>
                let res := fields.foldl
                  (fun (acc : JStr × List JStr) kv =>
                    let fp := flattenPath tb kv.1 kv.2
                    let key := if hasCtl fp.1 then jsonQuote fp.1 else fp.1
                    let sv := serialize cfg tb fuel fp.2 (level + 1) acc.2
                    let value := sv.1
                    if jsStartsWith (jstr "\n") value ∨ jsIncludes (jstr "\n") value then
                      (acc.1 ++ indent ++ key ++ ':' :: value ++ ['\n'], sv.2)
                    else
                      let escapedValue := if hasCtl value then jsonQuote value else value
                      (acc.1 ++ indent ++ key ++ ':' :: escapedValue ++ ['\n'], sv.2))
                  (if level = 0 then ([], st) else (jstr "\n", st))
                (jsTrimEnd res.1, res.2)
  termination_by structural fuel => fuel

/-- `_escVal(v)`: CSV-context escaping (`none` models `undefined`, which JS
renders as an empty field through `join`). -/
def escVal (cfg : Config) (tb : Tables) :
    Nat → Option Val → List JStr → JStr × List JStr
  | 0, _, st => ([], st)
  | _ + 1, none, st => ([], st)
  | fuel + 1, some v, st =>
      match v with
      | .null => (jstr "null", st)
      | .bool b => (if b then jstr "true" else jstr "false", st)
      | .num n => (intRepr n, st)
      | .str s =>
          match jmGet tb.valueDictionary s with
          | some dictAlias =>
              if cfg.useDictionary then
                if ¬ memJ st s then
                  let st := st ++ [s]
                  if escNeedsQuotesDict cfg.delimiter s then
                    (jsonQuote s ++ ' ' :: dictAlias, st)
                  else (s ++ ' ' :: dictAlias, st)
                else (dictAlias, st)
              else
                (if escNeedsQuotes cfg.delimiter s then jsonQuote s else s, st)
          | none =>
              (if escNeedsQuotes cfg.delimiter s then jsonQuote s else s, st)
      | .arr items =>
          let sv := serialize cfg tb fuel (.arr items) 0 st
          let serialized := jsTrim sv.1
          if jsIncludes (jstr "\n") serialized then
            (jsonStringify (.arr items), sv.2)
          else (serialized, sv.2)
      | .obj fields =>
          let sv := serialize cfg tb fuel (.obj fields) 0 st
          let serialized := jsTrim sv.1
          if jsIncludes (jstr "\n") serialized then
            (jsonStringify (.obj fields), sv.2)
          else (serialized, sv.2)
  termination_by structural fuel => fuel
end

/-- `serialized.replace(/^\n/, "")`. -/
def dropLeadingNewline : JStr → JStr
  | '\n' :: rest => rest
  | s => s

/-- `serialized.replace(/\n+$/, "")`. -/
def dropTrailingNewlines : JStr → JStr
  | [] => []
  | c :: rest =>
      let r := dropTrailingNewlines rest
      if r = [] ∧ c = '\n' then [] else c :: r

/-- The analysis tables built at the top of `compress` (pass order and flag
guards as in the source: the dictionary pass only runs when references are
enabled). -/
def buildTables (cfg : Config) (v : Val) : Tables :=
  if cfg.useReferences then
    { structureRefs := autoDetectPatterns v
      objectAliases := detectRepeatedObjects v
      valueDictionary := if cfg.useDictionary then detectFrequentValues v else [] }
  else
    { structureRefs := [], objectAliases := [], valueDictionary := [] }

/-- `compress(data)`: analysis, `$def:` header (aliases rendered with
aliasing disabled), body, newline cleanup. -/
def compress (cfg : Config) (v : Val) : JStr :=
  let tb := buildTables cfg v
  let fuel := 2 * valSize v + 8
  let hasDefs := tb.structureRefs.length > 0 ∨ tb.objectAliases.length > 0
  let headerSt : JStr × List JStr :=
    if hasDefs then
      let refLines := tb.structureRefs.foldl
        (fun acc p =>
          acc ++ sp cfg 1 ++ p.2.name ++ ':' :: '@' :: jsJoin cfg.delimiter p.2.keys ++ ['\n'])
        (jstr "$def:\n")
      let tbNoAlias := { tb with objectAliases := [] }
      let aliasLines := tb.objectAliases.foldl
        (fun (acc : JStr × List JStr) a =>
          let sv := serialize cfg tbNoAlias fuel a.2.2 2 acc.2
          (acc.1 ++ sp cfg 1 ++ a.2.1 ++ ':' :: sv.1 ++ ['\n'], sv.2))
        (refLines, [])
      (aliasLines.1 ++ jstr "$data:\n", aliasLines.2)
    else ([], [])
  let body := serialize cfg tb fuel v (if hasDefs then 1 else 0) headerSt.2
  headerSt.1 ++ dropTrailingNewlines (dropLeadingNewline body.1)

/-! ## Decoder -/

/-- Per-call decoder state: the header tables.  `none` models the fields
being `undefined`, as on a fresh instance during header parsing (`_parseVal`
guards the dictionary/alias tables by truthiness; `structureDefs` is
dereferenced unguarded, which on a fresh instance would throw). -/
structure PState where
  structureDefs : Option (JMap (List JStr))
  parsedAliases : Option (List (JStr × Val))
  parsedValueDict : Option (JMap JStr)
deriving Repr

def freshPState : PState := ⟨none, none, none⟩

/-- `_parseCsv(str)`: quote-aware splitting; a doubled quote inside quotes is
an escaped quote; the character after a backslash does not toggle quoting.
(Structural fuel: the escaped-quote case consumes two characters at once;
`parseCsv` provisions the input length plus one, which always suffices.) -/
def parseCsvAux (delim : Char) :
    Nat → List Char → Option Char → Bool → JStr → List JStr → List JStr
  | 0, _, _, _, curr, vals => vals ++ [curr]
  | _ + 1, [], _, _, curr, vals => vals ++ [curr]
  | fuel + 1, c :: rest, prev, inQuotes, curr, vals =>
      if c = '"' ∧ prev ≠ some '\\' then
        if inQuotes then
          match rest with
          | '"' :: rest2 =>
              parseCsvAux delim fuel rest2 (some '"') inQuotes (curr ++ ['"']) vals
          | _ => parseCsvAux delim fuel rest (some c) (¬ inQuotes) (curr ++ [c]) vals
        else parseCsvAux delim fuel rest (some c) (¬ inQuotes) (curr ++ [c]) vals
      else if c = delim ∧ ¬ inQuotes then
        parseCsvAux delim fuel rest (some c) inQuotes [] (vals ++ [curr])
      else parseCsvAux delim fuel rest (some c) inQuotes (curr ++ [c]) vals

def parseCsv (delim : Char) (s : JStr) : List JStr :=
  parseCsvAux delim (s.length + 1) s none false [] []

/-- `JSON.parse` of a quoted string literal (scan of the string body; `\uXXXX`
escapes are outside the model and reported as errors). -/
def jsonParseStringAux : JStr → JStr → Except JStr (JStr × JStr)
  | [], _ => .error (jstr "Unterminated string in JSON")
  | '"' :: rest, acc => .ok (acc, rest)
  | '\\' :: rest, acc =>
      match rest with
      | [] => .error (jstr "Unterminated string in JSON")
      | e :: rest2 =>
          let c : Option Char :=
            if e = 'n' then some '\n'
            else if e = 't' then some '\t'
            else if e = 'r' then some '\r'
            else if e = '"' then some '"'
            else if e = '\\' then some '\\'
            else if e = '/' then some '/'
            else none
          match c with
          | some c => jsonParseStringAux rest2 (acc ++ [c])
          | none => .error (jstr "Bad escape in JSON string")
  | c :: rest, acc => jsonParseStringAux rest (acc ++ [c])

/-- `JSON.parse(s)` where `s` is expected to be a quoted string (trailing
whitespace allowed, anything else is a syntax error). -/
def jsonParseString (s : JStr) : Except JStr JStr :=
  match s with
  | '"' :: rest =>
      match jsonParseStringAux rest [] with
      | .ok (content, rem) =>
          if rem.all (fun c => jsIsSpace c) then .ok content
          else .error (jstr "Unexpected token after JSON string")
      | .error e => .error e
  | _ => .error (jstr "Unexpected token in JSON")

/-- The inline-first pattern `^(.+?)\s+(#\d+)$`: the tag is a `#`-digit run at
the very end, preceded by at least one whitespace character; the (lazy) value
is everything before that whitespace run, must be non-empty and (since `.`
does not match newlines) newline-free. -/
def inlineFirstMatch (s : JStr) : Option (JStr × JStr) :=
  let r := s.reverse
  let ds := r.takeWhile (fun c => jsIsDigit c)
  if ds = [] then none
  else
    match r.drop ds.length with
    | '#' :: r2 =>
        let sps := r2.takeWhile (fun c => jsIsSpace c)
        if sps = [] then none
        else
          let value := (r2.drop sps.length).reverse
          if value = [] ∨ value.any (· = '\n') then none
          else some (value, '#' :: ds.reverse)
    | _ => none

/-- `parseFloat` on a `/^-?\d+\.?\d*$/`-shaped token, restricted to the
integral fragment of the model (`none` when the value is not integral). -/
def parseNumModel (s : JStr) : Option Int :=
  let p := match s with
    | '-' :: r => (true, r)
    | r => (false, r)
  let ds := p.2.takeWhile (fun c => jsIsDigit c)
  let rest := p.2.dropWhile (fun c => jsIsDigit c)
  if ds = [] then none
  else
    let signed : Int := if p.1 then -(natOfDigits ds 0 : Int) else (natOfDigits ds 0 : Int)
    match rest with
    | [] => some signed
    | '.' :: frac => if frac.all (· = '0') then some signed else none
    | _ => none

/-- `_parseVal(str)`: scalar parsing, in source order — literal words,
dictionary tag, inline-first registration (which mutates the live dictionary),
alias tag, bracketed literal, quoted string, number, raw text. -/
def parseVal (cfg : Config) : Nat → PState → JStr → Except JStr (Val × PState)
  | 0, _, _ => .error (jstr "out of fuel")
  | fuel + 1, st, s0 =>
      let s := jsTrim s0
      if s = jstr "null" then .ok (.null, st)
      else if s = jstr "true" then .ok (.bool true, st)
      else if s = jstr "false" then .ok (.bool false, st)
      else if s = jstr "[]" then .ok (.arr [], st)
      else if s = jstr "{}" then .ok (.obj [], st)
      else
        -- dictionary reference (tag only); a miss falls through
        let dictHit : Option JStr :=
          match st.parsedValueDict with
          | some dict => if jsStartsWith (jstr "#") s then jmGet dict s else none
          | none => none
        match dictHit with
        | some v => .ok (.str v, st)
        | none =>
        -- inline-first: "value #N" registers N ↦ value in the live dictionary
        match st.parsedValueDict, inlineFirstMatch s with
        | some dict, some (actualValue, tag) => do
            let parsed ←
              if jsStartsWith (jstr "\"") actualValue then jsonParseString actualValue
              else pure actualValue
            let st :=
              if (jmGet dict tag).isSome then st
              else { st with parsedValueDict := some (jmSet dict tag parsed) }
            .ok (.str parsed, st)
        | _, _ =>
        -- object alias reference; a miss falls through
        let aliasHit : Option Val :=
          match st.parsedAliases with
          | some aliases => if jsStartsWith (jstr "&obj") s then jmGet aliases s else none
          | none => none
        match aliasHit with
        | some v => .ok (v, st)
        | none =>
        if jsStartsWith (jstr "[") s ∧ jsEndsWith (jstr "]") s then
          -- bracketed literal [v1,v2,…]
          let content := jsTrim (jsSliceRange s 1 (s.length - 1))
          if content = [] then .ok (.arr [], st)
          else
            let vals := parseCsv cfg.delimiter content
            let folded := vals.foldlM
              (fun (acc : List Val × PState) v => do
                let r ← parseVal cfg fuel acc.2 v
                pure (acc.1 ++ [r.1], r.2))
              (([], st) : List Val × PState)
            do
              let r ← folded
              .ok (.arr r.1, r.2)
        else if jsStartsWith (jstr "\"") s then
          match jsonParseString s with
          | .ok c => .ok (.str c, st)
          | .error _ => .ok (.str s, st)
        else if looksLikeNumber s then
          match parseNumModel s with
          | some n => .ok (.num n, st)
          | none => .ok (.str s, st)
        else .ok (.str s, st)
  termination_by structural fuel => fuel

/-- Call `_parseVal` with fuel derived from the token (always sufficient:
recursive calls descend into strictly shorter CSV cells). -/
def parseValT (cfg : Config) (st : PState) (s : JStr) : Except JStr (Val × PState) :=
  parseVal cfg (s.length + 1) st s

/-- `_getIndent(line)`: −1 for blank lines, else the leading-whitespace count. -/
def getIndent (line : JStr) : Int :=
  if line = [] ∨ jsTrim line = [] then -1
  else ((line.takeWhile fun c => jsIsSpace c).length : Int)

/-- `_deepMerge(target, source)`: recursive merge used when un-flattening
dotted paths (property assignment on a primitive target is a `TypeError` in
strict mode, modelled as an error). -/
def isFalsyOpt : Option Val → Bool
  | none => true
  | some .null => true
  | some (.bool false) => true
  | some (.num 0) => true
  | some (.str []) => true
  | _ => false

mutual
def deepMerge : Val → Val → Except JStr Val
  | target, .obj sfs => deepMergeFields target sfs
  | target, _ => .ok target

def deepMergeFields : Val → List (JStr × Val) → Except JStr Val
  | target, [] => .ok target
  | .obj tfs, (key, sval) :: rest =>
      match sval with
      | .obj ssub => do
          let tfs := if isFalsyOpt (objGet tfs key) then objSet tfs key (.obj []) else tfs
          let merged ← deepMerge ((objGet tfs key).getD .null) (.obj ssub)
          deepMergeFields (.obj (objSet tfs key merged)) rest
      | _ => deepMergeFields (.obj (objSet tfs key sval)) rest
  | _, _ :: _ => .error (jstr "TypeError: cannot set property of a primitive")
end

/-- Build the nested single-key chain of a dotted path:
`for (j = parts.length−1; j ≥ 1; j--) value = {[parts[j]]: value}`. -/
def nestParts (parts : List JStr) (value : Val) : Val :=
  (parts.drop 1).foldr (fun p acc => .obj [(p, acc)]) value

/-- The CSV-row-to-object step shared by the uniform-array consumers:
`keys.forEach((k, idx) => { if (vals[idx] !== undefined && vals[idx] !== "")
rowObj[k] = parseVal(vals[idx]) })`. -/
def rowToObj (cfg : Config) (st : PState) (keys : List JStr) (vals : List JStr) :
    Except JStr (Val × PState) := do
  let folded : List (JStr × Val) × PState ← (keys.enum).foldlM
    (fun (acc : List (JStr × Val) × PState) kp => do
      match vals.get? kp.1 with
      | some v =>
          if v = [] then pure acc
          else do
            let r ← parseValT cfg acc.2 v
            pure (objSet acc.1 kp.2 r.1, r.2)
      | none => pure acc)
    (([], st) : List (JStr × Val) × PState)
  pure (.obj folded.1, folded.2)

/-- The lookahead `(?=\w+:)` of the `- key:val key:val` row splitter. -/
def lookaheadWordColon (s : JStr) : Bool :=
  let w := s.takeWhile fun c => jsIsWordChar c
  decide (w ≠ []) &&
    match s.drop w.length with
    | ':' :: _ => true
    | _ => false

/-- `str.split(/\s+(?=\w+:)/)`: split at every maximal whitespace run that is
followed by word characters and a colon.  (Structural fuel: a qualifying run
consumes several characters at once; the input length plus one suffices.) -/
def splitDashRowAux : Nat → List Char → JStr → List JStr → List JStr
  | 0, _, curr, acc => acc ++ [curr]
  | _ + 1, [], curr, acc => acc ++ [curr]
  | fuel + 1, c :: rest, curr, acc =>
      if jsIsSpace c then
        let run := (c :: rest).takeWhile fun d => jsIsSpace d
        let after := (c :: rest).drop run.length
        if lookaheadWordColon after then
          splitDashRowAux fuel after [] (acc ++ [curr])
        else splitDashRowAux fuel rest (curr ++ [c]) acc
      else splitDashRowAux fuel rest (curr ++ [c]) acc

def splitDashRow (s : JStr) : List JStr := splitDashRowAux (s.length + 1) s [] []

/-- `- key:val key:val …` row parsing inside `_parseUniformArray`. -/
def dashRowToObj (cfg : Config) (st : PState) (lineContent : JStr) :
    Except JStr (Val × PState) := do
  let parts := splitDashRow (jsSliceFrom lineContent 2)
  let folded ← parts.foldlM
    (fun (acc : List (JStr × Val) × PState) part => do
      let cIdx := jsIndexOf ':' part
      if cIdx > 0 then do
        let k := jsSliceRange part 0 cIdx.toNat
        let v := jsSliceFrom part (cIdx.toNat + 1)
        let r ← parseValT cfg acc.2 v
        pure (objSet acc.1 k r.1, r.2)
      else pure acc)
    (([], st) : List (JStr × Val) × PState)
  pure (.obj folded.1, folded.2)

/-- The row-consumption loop of `_parseUniformArray`: rows indented more than
the parent, blank lines skipped, `- key:val` rows and CSV rows. -/
def parseUARows (cfg : Config) :
    Nat → PState → List JStr → Nat → Int → List JStr → List Val →
    Except JStr (List Val × PState × Nat)
  | 0, _, _, _, _, _, _ => .error (jstr "out of fuel")
  | fuel + 1, st, lines, i, parentIndent, keys, acc =>
      if i ≥ lines.length then .ok (acc, st, i)
      else if getIndent (lines.getD i []) ≤ parentIndent then .ok (acc, st, i)
      else
        let lineContent := jsTrim (lines.getD i [])
        if lineContent = [] then
          parseUARows cfg fuel st lines (i + 1) parentIndent keys acc
        else if jsStartsWith (jstr "- ") lineContent then do
          let r ← dashRowToObj cfg st lineContent
          parseUARows cfg fuel r.2 lines (i + 1) parentIndent keys (acc ++ [r.1])
        else do
          let vals := parseCsv cfg.delimiter lineContent
          let r ← rowToObj cfg st keys vals
          parseUARows cfg fuel r.2 lines (i + 1) parentIndent keys (acc ++ [r.1])
  termination_by structural fuel => fuel

/-- `_parseUniformArray(lines, startIdx, parentIndent)`: `[N]` length
indicator parsed but never used; `@keys` inline or `$ref` resolved through
the structure definitions (an unresolved reference yields an empty array). -/
def parseUniformArray (cfg : Config) (fuel : Nat) (st : PState) (lines : List JStr)
    (startIdx : Nat) (parentIndent : Int) : Except JStr (Val × PState × Nat) :=
  let content := jsTrim (lines.getD startIdx [])
  let content :=
    if jsStartsWith (jstr "[") content then
      let endBracket := jsIndexOf ']' content
      if endBracket > 0 then
        let _expectedLength := jsParseInt (jsSliceRange content 1 endBracket.toNat)
        jsSliceFrom content (endBracket.toNat + 1)
      else content
    else content
  let _arrayIndent := getIndent (lines.getD startIdx [])
  if jsStartsWith (jstr "@") content then
    let keys := jsSplit cfg.delimiter (jsSliceFrom content 1)
    do
      let r ← parseUARows cfg fuel st lines (startIdx + 1) parentIndent keys []
      .ok (.arr r.1, r.2.1, r.2.2)
  else if jsStartsWith (jstr "$") content then
    let refName := jsSliceFrom content 1
    match st.structureDefs with
    | none => .error (jstr "TypeError: structureDefs is undefined")
    | some defs =>
        match jmGet defs refName with
        | none => .ok (.arr [], st, startIdx + 1)
        | some keys => do
            let r ← parseUARows cfg fuel st lines (startIdx + 1) parentIndent keys []
            .ok (.arr r.1, r.2.1, r.2.2)
  else .ok (.arr [], st, startIdx + 1)

/-- The row loop of the inline-table branches of `_parseObject` (CSV rows
only; blank lines terminate it, since their indent is −1). -/
def parseObjRows (cfg : Config) :
    Nat → PState → List JStr → Nat → Int → List JStr → List Val →
    Except JStr (List Val × PState × Nat)
  | 0, _, _, _, _, _, _ => .error (jstr "out of fuel")
  | fuel + 1, st, lines, i, keyIndent, keys, acc =>
      if i ≥ lines.length then .ok (acc, st, i)
      else if ¬ (getIndent (lines.getD i []) > keyIndent) then .ok (acc, st, i)
      else do
        let vals := parseCsv cfg.delimiter (jsTrim (lines.getD i []))
        let r ← rowToObj cfg st keys vals
        parseObjRows cfg fuel r.2 lines (i + 1) keyIndent keys (acc ++ [r.1])
  termination_by structural fuel => fuel

mutual
/-- `_parseValue(lines, idx, parentIndent)`: dispatch to list, uniform-array,
object or scalar parsing. -/
def parseValue (cfg : Config) :
    Nat → PState → List JStr → Nat → Int → Except JStr (Val × PState × Nat)
  | 0, _, _, _, _ => .error (jstr "out of fuel")
  | fuel + 1, st, lines, idx, parentIndent =>
      if idx ≥ lines.length then .ok (.null, st, idx)
      else
        let line := lines.getD idx []
        let indent := getIndent line
        let content := jsTrim line
        if content = [] then .ok (.null, st, idx + 1)
        else if content = jstr "-" ∨ jsStartsWith (jstr "- ") content then
          parseList cfg fuel st lines idx parentIndent (getIndent (lines.getD idx [])) []
        else if jsStartsWith (jstr "@") content
            ∨ (jsStartsWith (jstr "[") content ∧ jsIncludes (jstr "]@") content)
            ∨ (jsStartsWith (jstr "$") content ∧ ¬ jsStartsWith (jstr "$def") content
                ∧ ¬ jsStartsWith (jstr "$data") content) then
          parseUniformArray cfg fuel st lines idx parentIndent
        else
          let colonIdx := jsIndexOf ':' content
          if colonIdx > 0 ∧ indent > parentIndent then
            parseObject cfg fuel st lines idx parentIndent []
          else do
            let pv ← parseValT cfg st content
            .ok (pv.1, pv.2, idx + 1)
  termination_by structural fuel => fuel

/-- `_parseObject(lines, startIdx, parentIndent)`: the sibling `key:value`
loop, with dotted-path un-flattening and deep-merge, nested blocks, inline
uniform arrays and structure references. -/
def parseObject (cfg : Config) :
    Nat → PState → List JStr → Nat → Int → List (JStr × Val) →
    Except JStr (Val × PState × Nat)
  | 0, _, _, _, _, _ => .error (jstr "out of fuel")
  | fuel + 1, st, lines, i, parentIndent, obj =>
      if i ≥ lines.length then .ok (.obj obj, st, i)
      else
        let line := lines.getD i []
        let indent := getIndent line
        let content := jsTrim line
        if indent ≤ parentIndent then .ok (.obj obj, st, i)
        else if content = [] then parseObject cfg fuel st lines (i + 1) parentIndent obj
        else
          let colonIdx := jsIndexOf ':' content
          if ¬ (colonIdx > 0) then parseObject cfg fuel st lines (i + 1) parentIndent obj
          else do
            let key := jsTrim (jsSliceRange content 0 colonIdx.toNat)
            let rest := jsTrim (jsSliceFrom content (colonIdx.toNat + 1))
            let actualKey ←
              if jsStartsWith (jstr "\"") key then jsonParseString key else pure key
            if jsIncludes (jstr ".") actualKey ∧ ¬ jsStartsWith (jstr "\"") key then
              -- dotted path: un-flatten into a nested chain, deep-merge at root
              let parts := jsSplit '.' actualKey
              let rootKey := parts.headD []
              let r ←
                if rest = [] then
                  if i + 1 < lines.length ∧ getIndent (lines.getD (i + 1) []) > indent then
                    parseValue cfg fuel st lines (i + 1) indent
                  else pure (Val.null, st, i + 1)
                else do
                  let pv ← parseValT cfg st rest
                  pure (pv.1, pv.2, i + 1)
              let value := nestParts parts r.1
              let obj ←
                match objGet obj rootKey with
                | some (.obj existing) => do
                    let merged ← deepMerge (.obj existing) value
                    pure (objSet obj rootKey merged)
                | _ => pure (objSet obj rootKey value)
              parseObject cfg fuel r.2.1 lines r.2.2 parentIndent obj
            else if rest = [] then
              if i + 1 < lines.length ∧ getIndent (lines.getD (i + 1) []) > indent then do
                let r ← parseValue cfg fuel st lines (i + 1) indent
                parseObject cfg fuel r.2.1 lines r.2.2 parentIndent (objSet obj actualKey r.1)
              else
                parseObject cfg fuel st lines (i + 1) parentIndent (objSet obj actualKey .null)
            else if jsStartsWith (jstr "@") rest
                ∨ (jsStartsWith (jstr "[") rest ∧ jsIncludes (jstr "]@") rest) then
              -- inline uniform array ([N] prefix parsed but unused)
              let parsedRest :=
                if jsStartsWith (jstr "[") rest then
                  let endBracket := jsIndexOf ']' rest
                  if endBracket > 0 then
                    let _expectedLength := jsParseInt (jsSliceRange rest 1 endBracket.toNat)
                    jsSliceFrom rest (endBracket.toNat + 1)
                  else rest
                else rest
              let keys := jsSplit cfg.delimiter (jsSliceFrom parsedRest 1)
              let r ← parseObjRows cfg fuel st lines (i + 1) indent keys []
              parseObject cfg fuel r.2.1 lines r.2.2 parentIndent
                (objSet obj actualKey (.arr r.1))
            else if jsStartsWith (jstr "$") rest ∧ rest.length > 1 ∧ rest.getD 1 ' ' ≠ '{' then
              -- reference to a structure definition
              let refName := jsSliceFrom rest 1
              match st.structureDefs with
              | none => .error (jstr "TypeError: structureDefs is undefined")
              | some defs =>
                  match jmGet defs refName with
                  | some keys => do
                      let r ← parseObjRows cfg fuel st lines (i + 1) indent keys []
                      parseObject cfg fuel r.2.1 lines r.2.2 parentIndent
                        (objSet obj actualKey (.arr r.1))
                  | none => do
                      let pv ← parseValT cfg st rest
                      parseObject cfg fuel pv.2 lines (i + 1) parentIndent
                        (objSet obj actualKey pv.1)
            else do
              let pv ← parseValT cfg st rest
              parseObject cfg fuel pv.2 lines (i + 1) parentIndent
                (objSet obj actualKey pv.1)
  termination_by structural fuel => fuel

/-- `_parseList(lines, startIdx, parentIndent)`: consecutive sibling bullets
at the indentation of the first one. -/
def parseList (cfg : Config) :
    Nat → PState → List JStr → Nat → Int → Int → List Val →
    Except JStr (Val × PState × Nat)
  | 0, _, _, _, _, _, _ => .error (jstr "out of fuel")
  | fuel + 1, st, lines, i, parentIndent, listIndent, acc =>
      if i ≥ lines.length then .ok (.arr acc, st, i)
      else
        let indent := getIndent (lines.getD i [])
        if indent ≤ parentIndent then .ok (.arr acc, st, i)
        else
          let content := jsTrim (lines.getD i [])
          if ¬ (content = jstr "-" ∨ jsStartsWith (jstr "- ") content) then
            .ok (.arr acc, st, i)
          else if indent ≠ listIndent then .ok (.arr acc, st, i)
          else
            let val := jsTrim (jsSliceFrom content 2)
            if val = [] then
              -- value on the following more-indented block
              if i + 1 < lines.length ∧ getIndent (lines.getD (i + 1) []) > indent then do
                let r ← parseValue cfg fuel st lines (i + 1) indent
                parseList cfg fuel r.2.1 lines r.2.2 parentIndent listIndent (acc ++ [r.1])
              else
                parseList cfg fuel st lines (i + 1) parentIndent listIndent (acc ++ [Val.null])
            else
              let nextLineIndent : Int :=
                if i + 1 < lines.length then getIndent (lines.getD (i + 1) []) else 0
              if nextLineIndent > indent then do
                -- object continuation: "- key:value" plus following siblings
                let first : List (JStr × Val) × PState ←
                  (let cIdx := jsIndexOf ':' val
                   if cIdx > 0 then do
                     let k := jsTrim (jsSliceRange val 0 cIdx.toNat)
                     let v := jsTrim (jsSliceFrom val (cIdx.toNat + 1))
                     let pv ← parseValT cfg st v
                     pure (objSet [] k pv.1, pv.2)
                   else pure (([] : List (JStr × Val)), st))
                let r ← parseListObjCont cfg fuel first.2 lines (i + 1) indent nextLineIndent first.1
                parseList cfg fuel r.2.1 lines r.2.2 parentIndent listIndent (acc ++ [r.1])
              else
                let cIdx := jsIndexOf ':' val
                if cIdx > 0 ∧ ¬ jsStartsWith (jstr "[") val ∧ ¬ jsStartsWith (jstr "\x7b") val then do
                  -- single-property object "- key:value"
                  let k := jsTrim (jsSliceRange val 0 cIdx.toNat)
                  let v := jsTrim (jsSliceFrom val (cIdx.toNat + 1))
                  let pv ← parseValT cfg st v
                  parseList cfg fuel pv.2 lines (i + 1) parentIndent listIndent
                    (acc ++ [Val.obj [(k, pv.1)]])
                else do
                  let pv ← parseValT cfg st val
                  parseList cfg fuel pv.2 lines (i + 1) parentIndent listIndent (acc ++ [pv.1])
  termination_by structural fuel => fuel

/-- The object-continuation loop of `_parseList`: same-indent `key:value`
siblings extending the object started by an inline `- key:value` bullet. -/
def parseListObjCont (cfg : Config) :
    Nat → PState → List JStr → Nat → Int → Int → List (JStr × Val) →
    Except JStr (Val × PState × Nat)
  | 0, _, _, _, _, _, _ => .error (jstr "out of fuel")
  | fuel + 1, st, lines, i, indent, nextLineIndent, obj =>
      if i ≥ lines.length then .ok (.obj obj, st, i)
      else if ¬ (getIndent (lines.getD i []) > indent) then .ok (.obj obj, st, i)
      else
        let line := lines.getD i []
        let lineIndent := getIndent line
        let lineContent := jsTrim line
        if lineIndent = nextLineIndent ∧ jsIndexOf ':' lineContent > 0 then
          let colonIdx2 := jsIndexOf ':' lineContent
          let key2 := jsTrim (jsSliceRange lineContent 0 colonIdx2.toNat)
          let rest2 := jsTrim (jsSliceFrom lineContent (colonIdx2.toNat + 1))
          if rest2 = [] then
            if i + 1 < lines.length ∧ getIndent (lines.getD (i + 1) []) > lineIndent then do
              let r ← parseValue cfg fuel st lines (i + 1) lineIndent
              parseListObjCont cfg fuel r.2.1 lines r.2.2 indent nextLineIndent
                (objSet obj key2 r.1)
            else
              parseListObjCont cfg fuel st lines (i + 1) indent nextLineIndent
                (objSet obj key2 .null)
          else do
            let pv ← parseValT cfg st rest2
            parseListObjCont cfg fuel pv.2 lines (i + 1) indent nextLineIndent
              (objSet obj key2 pv.1)
        else .ok (.obj obj, st, i)
  termination_by structural fuel => fuel
end

/-- `_parseLines(lines, startIdx)`. -/
def parseLines (cfg : Config) (fuel : Nat) (st : PState) (lines : List JStr)
    (startIdx : Nat) : Except JStr Val := do
  let r ← parseValue cfg fuel st lines startIdx (-1)
  pure r.1

/-- The inner collection loop for a multiline alias definition in the header:
lines strictly more indented than the alias line, stopping at `$data:`. -/
def collectAliasLines (lines : List JStr) :
    Nat → Nat → Int → List JStr → List JStr × Nat
  | 0, i, _, acc => (acc, i)
  | fuel + 1, i, indent, acc =>
      if i ≥ lines.length ∨ jsTrim (lines.getD i []) = jstr "$data:" then (acc, i)
      else
        let line := lines.getD i []
        let nextIndent : Int := (line.length : Int) - ((jsTrimStart line).length : Int)
        if nextIndent > indent then collectAliasLines lines fuel (i + 1) indent (acc ++ [line])
        else (acc, i)

/-- The `$def:` header loop of `decompress`: structure definitions
(`name:@k1,k2`), dictionary entries (`#N:value`), inline and multiline alias
definitions.  Nested parses run on a fresh (undefined-tables) state, as on a
fresh instance. -/
def parseHeader (cfg : Config) :
    Nat → List JStr → Nat → (JMap (List JStr) × List (JStr × Val) × JMap JStr) →
    Except JStr ((JMap (List JStr) × List (JStr × Val) × JMap JStr) × Nat)
  | 0, _, _, _ => .error (jstr "out of fuel")
  | fuel + 1, lines, i, maps =>
      if i ≥ lines.length ∨ jsTrim (lines.getD i []) = jstr "$data:" then .ok (maps, i)
      else
        let line := lines.getD i []
        let indent : Int := (line.length : Int) - ((jsTrimStart line).length : Int)
        let trimmed := jsTrim line
        let colonIdx := jsIndexOf ':' trimmed
        if colonIdx > 0 then
          let refName := jsTrim (jsSliceRange trimmed 0 colonIdx.toNat)
          let rest := jsTrim (jsSliceFrom trimmed (colonIdx.toNat + 1))
          if jsStartsWith (jstr "@") rest then
            parseHeader cfg fuel lines (i + 1)
              (jmSet maps.1 refName (jsSplit cfg.delimiter (jsSliceFrom rest 1)),
               maps.2.1, maps.2.2)
          else if jsStartsWith (jstr "#") refName then do
            let value ←
              if jsStartsWith (jstr "\"") rest then jsonParseString rest else pure rest
            parseHeader cfg fuel lines (i + 1)
              (maps.1, maps.2.1, jmSet maps.2.2 refName value)
          else if jsStartsWith (jstr "&") refName ∧ jsStartsWith (jstr "&obj") refName then
            if rest = [] then do
              let col := collectAliasLines lines (lines.length + 1) (i + 1) indent []
              let objResult ← parseLines cfg ((col.1.length + 4) * (col.1.length + 4))
                freshPState col.1 0
              parseHeader cfg fuel lines col.2
                (maps.1, jmSet maps.2.1 refName objResult, maps.2.2)
            else do
              let pv ← parseVal cfg (rest.length + 1) freshPState rest
              parseHeader cfg fuel lines (i + 1)
                (maps.1, jmSet maps.2.1 refName pv.1, maps.2.2)
          else parseHeader cfg fuel lines (i + 1) maps
        else parseHeader cfg fuel lines (i + 1) maps

/-- `decompress(text)`: split into lines, parse the `$def:` header when
present, then parse the body with the header tables installed. -/
def decompress (cfg : Config) (text : JStr) : Except JStr Val :=
  let lines := jsSplit '\n' text
  let fuel := (lines.length + 4) * (lines.length + 4)
  if jsTrim (lines.getD 0 []) = jstr "$def:" then do
    let h ← parseHeader cfg (lines.length + 2) lines 1 ([], [], [])
    let dataStartLine := h.2 + 1
    let st : PState := ⟨some h.1.1, some h.1.2.1, some h.1.2.2⟩
    parseLines cfg fuel st lines dataStartLine
  else
    parseLines cfg fuel ⟨some [], some [], some []⟩ lines 0

/-! ## Specification-side counting (for comparison with the code's passes) -/

/-- The specification's alias-candidate test: a mapping with 1–3 keys, no
key's value a non-empty container. -/
def specAliasCandidate : Val → Bool
  | .obj fs =>
      fs.length ≥ 1 ∧ fs.length ≤ 3 ∧ fs.all fun kv =>
        match kv.2 with
        | .arr xs => xs.length = 0
        | .obj gs => gs.length = 0
        | _ => true
  | _ => false

mutual
/-- Occurrences over the whole tree of alias candidates whose
`JSON.stringify` rendering (the code's value-equality key) equals `key`. -/
def specCandOcc (key : JStr) : Val → Nat
  | .arr items => specCandOccList key items
  | .obj fs =>
      (if specAliasCandidate (.obj fs) ∧ jsonStringify (.obj fs) = key then 1 else 0)
        + specCandOccFields key fs
  | _ => 0

def specCandOccList (key : JStr) : List Val → Nat
  | [] => 0
  | v :: rest => specCandOcc key v + specCandOccList key rest

def specCandOccFields (key : JStr) : List (JStr × Val) → Nat
  | [] => 0
  | (_, v) :: rest => specCandOcc key v + specCandOccFields key rest
end

/-- One when the value is exactly the string `s`, else zero. -/
def specHeadCount (s : JStr) : Val → Nat
  | .str t => if t = s then 1 else 0
  | _ => 0

mutual
/-- Occurrences of the string `s` as an object value over the whole tree
(the quantity counted by the string-dictionary pass). -/
def specObjValCount (s : JStr) : Val → Nat
  | .arr items => specObjValCountList s items
  | .obj fs => specObjValCountFields s fs
  | _ => 0

def specObjValCountList (s : JStr) : List Val → Nat
  | [] => 0
  | v :: rest => specObjValCount s v + specObjValCountList s rest

def specObjValCountFields (s : JStr) : List (JStr × Val) → Nat
  | [] => 0
  | (_, v) :: rest =>
      specHeadCount s v + specObjValCount s v + specObjValCountFields s rest
end

/-! ## Concrete inputs for the claims -/

def c1Input : Val := .obj [(jstr "a.b", .num 1)]

def c2Input2 : Val := .obj [(jstr "users", .arr [
  .obj [(jstr "id", .num 1), (jstr "name", .str (jstr "Alice"))],
  .obj [(jstr "id", .num 2), (jstr "name", .str (jstr "Bob"))]])]

def c2Input3 : Val := .obj [(jstr "users", .arr [
  .obj [(jstr "id", .num 1), (jstr "name", .str (jstr "Alice"))],
  .obj [(jstr "id", .num 2), (jstr "name", .str (jstr "Bob"))],
  .obj [(jstr "id", .num 3), (jstr "name", .str (jstr "Caro"))]])]

def c2Input3x : Val := .obj [
  (jstr "a", .arr [.obj [(jstr "i", .num 1)], .obj [(jstr "i", .num 2)]]),
  (jstr "b", .arr [.obj [(jstr "i", .num 3)], .obj [(jstr "i", .num 4)]]),
  (jstr "c", .arr [.obj [(jstr "i", .num 5)], .obj [(jstr "i", .num 6)]])]

def c3X : Val := .obj [(jstr "x", .num 1)]
def c3Y : Val := .obj [(jstr "y", .num 2)]
def c3Input : Val := .arr [c3X, c3X, c3Y, c3Y]

def c4Input : Val := .obj [
  (jstr "a", .obj [(jstr "x", .str (jstr "alice@example.com")), (jstr "y", .num 1),
                   (jstr "z", .num 2), (jstr "w", .num 3)]),
  (jstr "b", .obj [(jstr "x", .str (jstr "alice@example.com")), (jstr "q", .num 1),
                   (jstr "r", .num 2), (jstr "s", .num 3)])]

def c5Input : Val := .obj [(jstr "k1", .str (jstr "abcdef")),
  (jstr "k2", .str (jstr "abcdef")), (jstr "k3", .str (jstr "abcdef"))]

def c7Input : Val := .obj [(jstr "a", .obj [(jstr "b", .obj [(jstr "c", .num 1)])])]

/-! ### Claim C10 inputs: a three-row table under a `[N]@id,name` header
with an arbitrary digit string `N`, and concrete `[N]$ref` / bare `$ref`
documents -/

def c10Rows : List JStr := [jstr " 1,Alice", jstr " 2,Bob", jstr " 3,Caro"]

def c10Line0 (ds : JStr) : JStr :=
  'u' :: 's' :: 'e' :: 'r' :: 's' :: ':' :: '[' :: (ds ++ jstr "]@id,name")

def c10Text (ds : JStr) : JStr :=
  jstr "users:[" ++ ds ++ jstr "]@id,name\n 1,Alice\n 2,Bob\n 3,Caro"

def c10Rest (ds : JStr) : JStr := '[' :: (ds ++ jstr "]@id,name")

def c10ST : PState := ⟨some [], some [], some []⟩

def c10Expected : Val := .obj [(jstr "users", .arr [
  .obj [(jstr "id", .num 1), (jstr "name", .str (jstr "Alice"))],
  .obj [(jstr "id", .num 2), (jstr "name", .str (jstr "Bob"))],
  .obj [(jstr "id", .num 3), (jstr "name", .str (jstr "Caro"))]])]

def c10BadText : JStr := jstr "$def:\n $0:@a,b\n$data:\n [2]$0\n  1,2\n  3,4"

def c10RefElems : List Val :=
  [.obj [(jstr "a", .num 1), (jstr "b", .num 2)],
   .obj [(jstr "a", .num 3), (jstr "b", .num 4)]]

/-! ## Claim theorems -/

/-- Claim C1 (code bug): round-trip fidelity fails on the JSON value
`{"a.b": 1}` — a mapping key containing a dot.  `compress` renders it as the
line `a.b:1` without quoting the key, and `decompress` un-flattens the dotted
key, returning `{"a": {"b": 1}}` instead of the original value. -/
theorem c1_roundtrip_fails_on_dotted_key :
    compress defaultCfg c1Input = jstr "a.b:1" ∧
    decompress defaultCfg (compress defaultCfg c1Input) =
      .ok (.obj [(jstr "a", .obj [(jstr "b", .num 1)])]) ∧
    Val.obj [(jstr "a", .obj [(jstr "b", .num 1)])] ≠ c1Input :=
  ⟨rfl, rfl, by simp [c1Input]⟩

/-- Claim C2 (counterexample): an array of exactly 3 identical-schema objects
does NOT create a StructureRef — the pattern pass counts uniform-array
occurrences of a schema, not elements, so a single 3-element array counts
once (< 3) and the emitted table header stays inline, with no `$def:`
header. -/
theorem c2_counterexample_three_element_array_no_ref :
    autoDetectPatterns c2Input3 = [] ∧
    jsIncludes (jstr "$def") (compress defaultCfg c2Input3) = false ∧
    compress defaultCfg c2Input3 = jstr "users:[3]@id,name\n 1,Alice\n 2,Bob\n 3,Caro" :=
  ⟨rfl, rfl, rfl⟩

/-- Claim C2 (amended): arrays of exactly 2 and exactly 3 identical-schema
objects both emit an inline `@keys` table header and create no StructureRef;
the ≥ 3 threshold counts uniform-array occurrences of the schema across the
tree, so a schema occurring as three separate uniform arrays yields the
StructureRef `$0` (defined in the `$def:` header), with each table header
using the reference (rendered as `$$0`). -/
theorem c2_dedup_thresholds :
    compress defaultCfg c2Input2 = jstr "users:[2]@id,name\n 1,Alice\n 2,Bob" ∧
    autoDetectPatterns c2Input2 = [] ∧
    compress defaultCfg c2Input3 = jstr "users:[3]@id,name\n 1,Alice\n 2,Bob\n 3,Caro" ∧
    autoDetectPatterns c2Input3 = [] ∧
    autoDetectPatterns c2Input3x = [(jstr "i", ⟨jstr "$0", [jstr "i"], 3⟩)] ∧
    compress defaultCfg c2Input3x =
      jstr "$def:\n $0:@i\n$data:\n a:[2]$$0\n  1\n  2\n b:[2]$$0\n  3\n  4\n c:[2]$$0\n  5\n  6" :=
  ⟨rfl, rfl, rfl, rfl, rfl, rfl⟩

/-- Claim C3 (code bug): the alias-promotion block of
`_detectRepeatedObjects` runs at the end of every recursive invocation (not
only at the root) and is disabled as soon as one alias exists.  In
`[{"x":1},{"x":1},{"y":2},{"y":2}]` the candidate `{"y":2}` occurs twice
(spec count 2) yet receives no alias: only `{"x":1}` — whose count reached 2
first — is aliased, and the emitted text repeats `y:2` verbatim. -/
theorem c3_second_candidate_not_aliased :
    detectRepeatedObjects c3Input = [(jsonStringify c3X, jstr "&obj0", c3X)] ∧
    aliasGet (detectRepeatedObjects c3Input) (jsonStringify c3Y) = none ∧
    specCandOcc (jsonStringify c3Y) c3Input = 2 ∧
    compress defaultCfg c3Input =
      jstr "$def:\n &obj0:\n  x:1\n$data:\n - &obj0\n - &obj0\n - y:2\n - y:2" :=
  ⟨rfl, rfl, rfl, rfl⟩

/-- Claim C4 (counterexample): a string of length ≥ 5 occurring as an object
value at exactly two distinct paths produces NO `$def:` header at all —
`compress` emits dictionary entries inline (inline-first), never in the
header; the `$def:` header is emitted only for structure refs and object
aliases. -/
theorem c4_counterexample_no_def_header :
    jsIncludes (jstr "$def") (compress defaultCfg c4Input) = false ∧
    detectFrequentValues c4Input = [(jstr "alice@example.com", jstr "#0")] :=
  ⟨rfl, rfl⟩

/-- Claim C4 (amended): for a string of length ≥ 5 occurring as an object
value at exactly two distinct paths, `compress` creates exactly one
dictionary entry, but emits it inline rather than in a `$def:` header: the
first occurrence site renders as `value #0` and the second as `#0` alone. -/
theorem c4_dictionary_inline_not_in_header :
    detectFrequentValues c4Input = [(jstr "alice@example.com", jstr "#0")] ∧
    compress defaultCfg c4Input =
      jstr "a:\n x:alice@example.com #0\n y:1\n z:2\n w:3\nb:\n x:#0\n q:1\n r:2\n s:3" :=
  ⟨rfl, rfl⟩

/-- Claim C5 (confirmed): a 6-character string occurring 3 times as object
values renders as `value #0` at the first occurrence and `#0` at each later
occurrence, and `decompress` reconstructs the identical original string at
all three sites (the inline-first token registers the tag in the live
dictionary). -/
theorem c5_inline_first_roundtrip :
    compress defaultCfg c5Input = jstr "k1:abcdef #0\nk2:#0\nk3:#0" ∧
    decompress defaultCfg (compress defaultCfg c5Input) = .ok c5Input :=
  ⟨rfl, rfl⟩

/-- Claim C7 (confirmed): `{a:{b:{c:1}}}` compresses to the single flattened
line `a.b.c:1` and decompresses back to the original three-level nesting;
during decode a dotted key is un-flattened into a single-key nested chain and
deep-merged with the existing value at the same root key, so `a.b:1` and
`a.c:2` merge into one nested object. -/
theorem c7_path_flattening_roundtrip :
    compress defaultCfg c7Input = jstr "a.b.c:1" ∧
    decompress defaultCfg (jstr "a.b.c:1") = .ok c7Input ∧
    decompress defaultCfg (jstr "a.b:1\na.c:2") =
      .ok (.obj [(jstr "a", .obj [(jstr "b", .num 1), (jstr "c", .num 2)])]) :=
  ⟨rfl, rfl, rfl⟩

/-- Claim C8 (counterexample): a `$name` reference with no matching structure
definition does not always yield an empty sequence — when it appears as a
key's inline value, `_parseObject` falls back to `_parseVal` and the raw
token text is returned: `a:$zz` decodes to `{"a": "$zz"}`, not `{"a": []}`. -/
theorem c8_counterexample_object_value_ref_is_raw_text :
    decompress defaultCfg (jstr "a:$zz") = .ok (.obj [(jstr "a", .str (jstr "$zz"))]) ∧
    Val.obj [(jstr "a", Val.str (jstr "$zz"))] ≠ Val.obj [(jstr "a", Val.arr [])] :=
  ⟨rfl, by simp⟩

/-- Claim C8 (amended): `decompress` raises no error on an unresolved
reference token.  A standalone `$name` table header with no matching
definition yields an empty sequence; a `$name` appearing as a key's inline
value, and unresolved `&objN` / `#N` tokens, are returned as their raw token
text. -/
theorem c8_unresolved_reference_leniency :
    decompress defaultCfg (jstr "$zz") = .ok (.arr []) ∧
    decompress defaultCfg (jstr "a:$zz") = .ok (.obj [(jstr "a", .str (jstr "$zz"))]) ∧
    decompress defaultCfg (jstr "a:&obj9") = .ok (.obj [(jstr "a", .str (jstr "&obj9"))]) ∧
    decompress defaultCfg (jstr "a:#7") = .ok (.obj [(jstr "a", .str (jstr "#7"))]) :=
  ⟨rfl, rfl, rfl, rfl⟩

/-- Claim C9 (counterexample): an unterminated `$def:` block is not an error —
the header loop consumes the whole input, body parsing starts past the end of
the lines, and `decompress` returns `null` rather than failing. -/
theorem c9_counterexample_unterminated_def_returns_null :
    decompress defaultCfg (jstr "$def:\n $0:@a,b") = .ok .null :=
  rfl

/-- Claim C9 (amended): on an input whose `$def:` block is never terminated
by a `$data:` line, `decompress` does not fail: the whole input is consumed
as header and the parsed value is `null`. -/
theorem c9_unterminated_def_block_yields_null :
    decompress defaultCfg (jstr "$def:\n #0:hello") = .ok .null ∧
    decompress defaultCfg (jstr "$def:") = .ok .null :=
  ⟨rfl, rfl⟩

/-! ## Map lemmas -/

theorem jmGet_jmSet {α : Type} (m : JMap α) (k : JStr) (v : α) (s : JStr) :
    jmGet (jmSet m k v) s = if k = s then some v else jmGet m s := by
  induction m with
  | nil => simp [jmSet, jmGet]
  | cons p rest ih =>
      obtain ⟨pk, pv⟩ := p
      by_cases hk : pk = k
      · subst hk
        simp only [jmSet, if_pos rfl, jmGet]
        by_cases hs : pk = s <;> simp [hs]
      · simp only [jmSet, if_neg hk, jmGet]
        by_cases hs : pk = s
        · subst hs
          have hne : ¬ k = pk := fun h => hk h.symm
          simp [hne]
        · simp [hs, ih]

theorem jmGet_mem {α : Type} {m : JMap α} {s : JStr} {n : α} (h : jmGet m s = some n) :
    (s, n) ∈ m := by
  induction m with
  | nil => simp [jmGet] at h
  | cons p rest ih =>
      obtain ⟨pk, pv⟩ := p
      rw [jmGet] at h
      by_cases hs : pk = s
      · subst hs
        rw [if_pos rfl] at h
        cases h
        exact List.mem_cons_self _ _
      · rw [if_neg hs] at h
        exact List.mem_cons_of_mem _ (ih h)

theorem mem_jmGet_of_nodup {α : Type} {m : JMap α} {s : JStr} {n : α}
    (hnd : (m.map Prod.fst).Nodup) (h : (s, n) ∈ m) : jmGet m s = some n := by
  induction m with
  | nil => simp at h
  | cons p rest ih =>
      obtain ⟨pk, pv⟩ := p
      simp only [List.map_cons, List.nodup_cons] at hnd
      rcases List.mem_cons.mp h with h1 | h1
      · cases h1
        simp [jmGet]
      · have hne : pk ≠ s := by
          intro he
          subst he
          exact hnd.1 (List.mem_map.mpr ⟨(pk, n), h1, rfl⟩)
        rw [jmGet, if_neg hne]
        exact ih hnd.2 h1

theorem jmGet_isSome_iff {α : Type} (m : JMap α) (s : JStr) :
    (jmGet m s).isSome ↔ s ∈ m.map Prod.fst := by
  induction m with
  | nil => simp [jmGet]
  | cons p rest ih =>
      obtain ⟨pk, pv⟩ := p
      rw [jmGet]
      by_cases hs : pk = s
      · subst hs
        rw [if_pos rfl]
        simp only [Option.isSome_some, List.map_cons, List.mem_cons, true_iff]
        exact Or.inl trivial
      · simp only [if_neg hs, List.map_cons, List.mem_cons, ih]
        constructor
        · intro h; right; exact h
        · rintro (h | h)
          · exact absurd h.symm hs
          · exact h

theorem jmSet_keys {α : Type} (m : JMap α) (k : JStr) (v : α) :
    (jmSet m k v).map Prod.fst =
      if k ∈ m.map Prod.fst then m.map Prod.fst else m.map Prod.fst ++ [k] := by
  induction m with
  | nil => simp [jmSet]
  | cons p rest ih =>
      obtain ⟨pk, pv⟩ := p
      by_cases hk : pk = k
      · subst hk
        rw [jmSet, if_pos rfl]
        simp only [List.map_cons, List.mem_cons, true_or, if_pos]
      · have hne : ¬ k = pk := fun h => hk h.symm
        simp only [jmSet, if_neg hk, List.map_cons, ih, List.mem_cons]
        by_cases hmem : k ∈ rest.map Prod.fst <;> simp [hmem, hne]

theorem jmSet_nodup {α : Type} {m : JMap α} (k : JStr) (v : α)
    (hnd : (m.map Prod.fst).Nodup) : ((jmSet m k v).map Prod.fst).Nodup := by
  rw [jmSet_keys]
  by_cases hmem : k ∈ m.map Prod.fst
  · simpa [hmem]
  · simp only [if_neg hmem]
    simp [List.nodup_append, hnd, hmem]

theorem jmIncr_getD (m : JMap Nat) (k s : JStr) :
    (jmGet (jmIncr m k) s).getD 0 =
      (jmGet m s).getD 0 + (if k = s then 1 else 0) := by
  rw [jmIncr, jmGet_jmSet]
  by_cases h : k = s
  · subst h; simp
  · simp [h]

theorem jmIncr_nodup {m : JMap Nat} (k : JStr)
    (hnd : (m.map Prod.fst).Nodup) : ((jmIncr m k).map Prod.fst).Nodup :=
  jmSet_nodup _ _ hnd

/-! ## Dictionary-pass counting lemmas -/

theorem dfvCountStep_getD (m : JMap Nat) (v : Val) (s : JStr) :
    (jmGet (dfvCountStep m v) s).getD 0 =
      (jmGet m s).getD 0 + (if 5 ≤ s.length then specHeadCount s v else 0) := by
  cases v with
  | str t =>
      rw [dfvCountStep, specHeadCount]
      by_cases hl : 5 ≤ t.length
      · rw [if_pos hl, jmIncr_getD]
        by_cases hts : t = s
        · subst hts
          simp [hl]
        · simp [hts]
      · rw [if_neg hl]
        by_cases hts : t = s
        · subst hts
          simp [hl]
        · simp [hts]
  | null => simp [dfvCountStep, specHeadCount]
  | bool b => simp [dfvCountStep, specHeadCount]
  | num n => simp [dfvCountStep, specHeadCount]
  | arr items => simp [dfvCountStep, specHeadCount]
  | obj gs => simp [dfvCountStep, specHeadCount]

theorem dfvCountStep_nodup (m : JMap Nat) (v : Val)
    (h : (m.map Prod.fst).Nodup) : ((dfvCountStep m v).map Prod.fst).Nodup := by
  cases v with
  | str t =>
      rw [dfvCountStep]
      by_cases hl : 5 ≤ t.length
      · rw [if_pos hl]
        exact jmIncr_nodup t h
      · rwa [if_neg hl]
  | null => exact h
  | bool b => exact h
  | num n => exact h
  | arr items => exact h
  | obj gs => exact h

mutual
theorem dfvVal_getD (s : JStr) : ∀ (v : Val) (m : JMap Nat),
    (jmGet (dfvVal v m) s).getD 0 =
      (jmGet m s).getD 0 + (if 5 ≤ s.length then specObjValCount s v else 0)
  | .null, m => by simp [dfvVal, specObjValCount]
  | .bool b, m => by simp [dfvVal, specObjValCount]
  | .num n, m => by simp [dfvVal, specObjValCount]
  | .str t, m => by simp [dfvVal, specObjValCount]
  | .arr items, m => by
      rw [dfvVal, specObjValCount]
      exact dfvList_getD s items m
  | .obj fields, m => by
      rw [dfvVal, specObjValCount]
      exact dfvFields_getD s fields m

theorem dfvList_getD (s : JStr) : ∀ (l : List Val) (m : JMap Nat),
    (jmGet (dfvList l m) s).getD 0 =
      (jmGet m s).getD 0 + (if 5 ≤ s.length then specObjValCountList s l else 0)
  | [], m => by simp [dfvList, specObjValCountList]
  | v :: rest, m => by
      rw [dfvList, specObjValCountList, dfvList_getD s rest (dfvVal v m),
        dfvVal_getD s v m]
      by_cases h : 5 ≤ s.length <;> simp [h] <;> omega

theorem dfvFields_getD (s : JStr) : ∀ (fs : List (JStr × Val)) (m : JMap Nat),
    (jmGet (dfvFields fs m) s).getD 0 =
      (jmGet m s).getD 0 + (if 5 ≤ s.length then specObjValCountFields s fs else 0)
  | [], m => by simp [dfvFields, specObjValCountFields]
  | (k, v) :: rest, m => by
      rw [dfvFields, specObjValCountFields,
        dfvFields_getD s rest (dfvVal v (dfvCountStep m v)),
        dfvVal_getD s v (dfvCountStep m v), dfvCountStep_getD m v s]
      by_cases h : 5 ≤ s.length <;> simp [h] <;> omega
end

mutual
theorem dfvVal_nodup : ∀ (v : Val) (m : JMap Nat),
    (m.map Prod.fst).Nodup → ((dfvVal v m).map Prod.fst).Nodup
  | .null, _, h => h
  | .bool _, _, h => h
  | .num _, _, h => h
  | .str _, _, h => h
  | .arr items, m, h => dfvList_nodup items m h
  | .obj fields, m, h => dfvFields_nodup fields m h

theorem dfvList_nodup : ∀ (l : List Val) (m : JMap Nat),
    (m.map Prod.fst).Nodup → ((dfvList l m).map Prod.fst).Nodup
  | [], _, h => h
  | v :: rest, m, h => dfvList_nodup rest (dfvVal v m) (dfvVal_nodup v m h)

theorem dfvFields_nodup : ∀ (fs : List (JStr × Val)) (m : JMap Nat),
    (m.map Prod.fst).Nodup → ((dfvFields fs m).map Prod.fst).Nodup
  | [], _, h => h
  | (_, v) :: rest, m, h =>
      dfvFields_nodup rest (dfvVal v (dfvCountStep m v))
        (dfvVal_nodup v (dfvCountStep m v) (dfvCountStep_nodup m v h))
end

/-! ## Dictionary candidate, sorting and tag-assignment lemmas -/

theorem mem_dictCandidates {m : JMap Nat} {c : DictCand} :
    c ∈ dictCandidates m ↔
      ((c.value, c.count) ∈ m ∧ 2 ≤ c.count ∧
        c.savings = dictSavings c.value.length c.count ∧ 0 < c.savings) := by
  obtain ⟨cv, cc, cs⟩ := c
  induction m with
  | nil => simp [dictCandidates]
  | cons p rest ih =>
      obtain ⟨val, cnt⟩ := p
      simp only [dictCandidates, List.mem_cons]
      by_cases h2 : cnt ≥ 2
      · by_cases hs : dictSavings val.length cnt > 0
        · rw [if_pos h2, if_pos hs]
          simp only [List.mem_cons]
          constructor
          · rintro (heq | h)
            · cases heq
              exact ⟨Or.inl rfl, h2, rfl, hs⟩
            · have := ih.mp h
              exact ⟨Or.inr this.1, this.2⟩
          · rintro ⟨heq | hmem, hc2, hsav, hpos⟩
            · simp only [Prod.mk.injEq] at heq
              obtain ⟨rfl, rfl⟩ := heq
              left
              rw [hsav]
            · exact Or.inr (ih.mpr ⟨hmem, hc2, hsav, hpos⟩)
        · rw [if_pos h2, if_neg hs]
          rw [ih]
          constructor
          · rintro ⟨hmem, hc2, hsav, hpos⟩
            exact ⟨Or.inr hmem, hc2, hsav, hpos⟩
          · rintro ⟨heq | hmem, hc2, hsav, hpos⟩
            · simp only [Prod.mk.injEq] at heq
              obtain ⟨rfl, rfl⟩ := heq
              exact absurd (hsav ▸ hpos) hs
            · exact ⟨hmem, hc2, hsav, hpos⟩
      · rw [if_neg h2]
        rw [ih]
        constructor
        · rintro ⟨hmem, hc2, hsav, hpos⟩
          exact ⟨Or.inr hmem, hc2, hsav, hpos⟩
        · rintro ⟨heq | hmem, hc2, hsav, hpos⟩
          · simp only [Prod.mk.injEq] at heq
            obtain ⟨rfl, rfl⟩ := heq
            exact absurd hc2 h2
          · exact ⟨hmem, hc2, hsav, hpos⟩

theorem insertSorted_perm {α : Type} (le : α → α → Bool) (x : α) (l : List α) :
    (insertSorted le x l).Perm (x :: l) := by
  induction l with
  | nil => exact List.Perm.refl _
  | cons y rest ih =>
      rw [insertSorted]
      by_cases h : le x y
      · rw [if_pos h]
      · rw [if_neg h]
        exact (ih.cons y).trans (List.Perm.swap x y rest)

theorem sortBy_perm {α : Type} (le : α → α → Bool) (l : List α) :
    (sortBy le l).Perm l := by
  induction l with
  | nil => exact List.Perm.refl _
  | cons x rest ih =>
      rw [sortBy, List.foldr]
      exact (insertSorted_perm le x _).trans (ih.cons x)

theorem insertSorted_pairwise {α : Type} (le : α → α → Bool)
    (htot : ∀ a b, le a b = true ∨ le b a = true)
    (htr : ∀ a b c, le a b = true → le b c = true → le a c = true)
    (x : α) (l : List α) (h : List.Pairwise (fun a b => le a b = true) l) :
    List.Pairwise (fun a b => le a b = true) (insertSorted le x l) := by
  induction l with
  | nil => simp [insertSorted]
  | cons y rest ih =>
      rw [List.pairwise_cons] at h
      rw [insertSorted]
      by_cases hxy : le x y = true
      · rw [if_pos hxy]
        refine List.Pairwise.cons ?_ (List.Pairwise.cons h.1 h.2)
        intro b hb
        rcases List.mem_cons.mp hb with rfl | hb2
        · exact hxy
        · exact htr x y b hxy (h.1 b hb2)
      · rw [if_neg hxy]
        refine List.Pairwise.cons ?_ (ih h.2)
        intro b hb
        rcases List.mem_cons.mp ((insertSorted_perm le x rest).mem_iff.mp hb) with rfl | h1
        · rcases htot b y with h1 | h1
          · exact absurd h1 hxy
          · exact h1
        · exact h.1 b h1

theorem sortBy_pairwise {α : Type} (le : α → α → Bool)
    (htot : ∀ a b, le a b = true ∨ le b a = true)
    (htr : ∀ a b c, le a b = true → le b c = true → le a c = true)
    (l : List α) : List.Pairwise (fun a b => le a b = true) (sortBy le l) := by
  induction l with
  | nil => simp [sortBy]
  | cons x rest ih =>
      rw [sortBy, List.foldr]
      exact insertSorted_pairwise le htot htr x _ ih

theorem assignTags_keys : ∀ (l : List DictCand) (n : Nat),
    (assignTags l n).map Prod.fst = l.map (fun c => c.value)
  | [], _ => rfl
  | c :: rest, n => by
      rw [assignTags, List.map_cons, List.map_cons, assignTags_keys rest (n + 1)]

theorem mem_assignTags_fst : ∀ {l : List DictCand} {n : Nat} {y : JStr × JStr},
    y ∈ assignTags l n → ∃ c ∈ l, y.1 = c.value
  | [], _, _, h => by simp [assignTags] at h
  | c :: rest, n, y, h => by
      rw [assignTags] at h
      rcases List.mem_cons.mp h with rfl | h2
      · exact ⟨c, List.mem_cons_self _ _, rfl⟩
      · obtain ⟨d, hd, he⟩ := mem_assignTags_fst h2
        exact ⟨d, List.mem_cons_of_mem _ hd, he⟩

theorem assignTags_length : ∀ (l : List DictCand) (n : Nat),
    (assignTags l n).length = l.length
  | [], _ => rfl
  | c :: rest, n => by
      rw [assignTags, List.length_cons, List.length_cons, assignTags_length rest (n + 1)]

theorem assignTags_getD : ∀ (l : List DictCand) (n : Nat) (i : Nat), i < l.length →
    ((assignTags l n).getD i ([], [])).2 = '#' :: natRepr (n + i)
  | [], n, i, h => by simp at h
  | c :: rest, n, 0, h => by simp [assignTags]
  | c :: rest, n, i + 1, h => by
      rw [assignTags, List.getD_cons_succ, assignTags_getD rest (n + 1) i (by
        rw [List.length_cons] at h
        omega)]
      congr 2
      omega

theorem assignTags_pairwise {S : DictCand → DictCand → Prop}
    {R : JStr × JStr → JStr × JStr → Prop} :
    ∀ (l : List DictCand) (n : Nat), List.Pairwise S l →
      (∀ c d, c ∈ l → d ∈ l → S c d → ∀ t u, R (c.value, t) (d.value, u)) →
      List.Pairwise R (assignTags l n)
  | [], _, _, _ => List.Pairwise.nil
  | c :: rest, n, h, hR => by
      rw [List.pairwise_cons] at h
      rw [assignTags]
      refine List.Pairwise.cons ?_
        (assignTags_pairwise rest (n + 1) h.2 fun a b ha hb hab =>
          hR a b (List.mem_cons_of_mem _ ha) (List.mem_cons_of_mem _ hb) hab)
      intro y hy
      obtain ⟨d, hd, he⟩ := mem_assignTags_fst hy
      have hcd := hR c d (List.mem_cons_self _ _) (List.mem_cons_of_mem _ hd) (h.1 d hd)
        ('#' :: natRepr n) y.2
      rw [← he] at hcd
      exact hcd

theorem savingsGe_total : ∀ a b : DictCand, savingsGe a b = true ∨ savingsGe b a = true := by
  intro a b
  simp only [savingsGe, decide_eq_true_eq]
  exact (Int.le_total b.savings a.savings)

theorem savingsGe_trans : ∀ a b c : DictCand,
    savingsGe a b = true → savingsGe b c = true → savingsGe a c = true := by
  intro a b c hab hbc
  simp only [savingsGe, decide_eq_true_eq] at *
  omega

/-- Claim C6 (confirmed): a string value becomes a dictionary entry exactly
when its length is ≥ 5, it occurs ≥ 2 times as an object value in the tree,
and the savings estimate `length·count − (length + 3 + 2·(count−1))` is
strictly positive; the dictionary lists entries in descending-savings order
and assigns the tags `#0, #1, …` in that order. -/
theorem c6_dictionary_entry_condition (v : Val) :
    (∀ s : JStr,
      (jmGet (detectFrequentValues v) s).isSome ↔
        (5 ≤ s.length ∧ 2 ≤ specObjValCount s v ∧
          0 < dictSavings s.length (specObjValCount s v)))
    ∧ List.Pairwise
        (fun a b => dictSavings b.1.length (specObjValCount b.1 v)
          ≤ dictSavings a.1.length (specObjValCount a.1 v))
        (detectFrequentValues v)
    ∧ ∀ i : Nat, i < (detectFrequentValues v).length →
        ((detectFrequentValues v).getD i ([], [])).2 = '#' :: natRepr i := by
  have hnd : ((dfvVal v []).map Prod.fst).Nodup := dfvVal_nodup v [] (by simp)
  have hA : ∀ s n, (s, n) ∈ dfvVal v [] →
      n = if 5 ≤ s.length then specObjValCount s v else 0 := by
    intro s n hmem
    have hsome := mem_jmGet_of_nodup hnd hmem
    have h1 := dfvVal_getD s v []
    rw [hsome] at h1
    simpa [jmGet] using h1
  have hB : ∀ c : DictCand, c ∈ dictCandidates (dfvVal v []) →
      5 ≤ c.value.length ∧ c.count = specObjValCount c.value v ∧
        c.savings = dictSavings c.value.length c.count ∧ 0 < c.savings ∧ 2 ≤ c.count := by
    intro c hc
    obtain ⟨hmem, hc2, hsav, hpos⟩ := mem_dictCandidates.mp hc
    have hn := hA c.value c.count hmem
    by_cases hl : 5 ≤ c.value.length
    · rw [if_pos hl] at hn
      exact ⟨hl, hn, hsav, hpos, hc2⟩
    · rw [if_neg hl] at hn
      omega
  refine ⟨?_, ?_, ?_⟩
  · intro s
    simp only [detectFrequentValues]
    rw [jmGet_isSome_iff, assignTags_keys]
    constructor
    · intro hmem
      obtain ⟨c, hc, rfl⟩ := List.mem_map.mp hmem
      have hc2 : c ∈ dictCandidates (dfvVal v []) := (sortBy_perm _ _).mem_iff.mp hc
      obtain ⟨hl, hcnt, hsav, hpos, hge2⟩ := hB c hc2
      refine ⟨hl, ?_, ?_⟩
      · rw [← hcnt]
        exact hge2
      · rw [← hcnt, ← hsav]
        exact hpos
    · rintro ⟨hl, hcnt, hpos⟩
      have hget : (jmGet (dfvVal v []) s).getD 0 = specObjValCount s v := by
        rw [dfvVal_getD s v []]
        simp [jmGet, hl]
      have hsome : jmGet (dfvVal v []) s = some (specObjValCount s v) := by
        cases hj : jmGet (dfvVal v []) s with
        | none => rw [hj] at hget; simp at hget; omega
        | some k => rw [hj] at hget; simp at hget; rw [hget]
      have hmem : (s, specObjValCount s v) ∈ dfvVal v [] := jmGet_mem hsome
      have hcand : (⟨s, specObjValCount s v,
          dictSavings s.length (specObjValCount s v)⟩ : DictCand)
          ∈ dictCandidates (dfvVal v []) :=
        mem_dictCandidates.mpr ⟨hmem, hcnt, rfl, hpos⟩
      exact List.mem_map.mpr ⟨_, (sortBy_perm _ _).mem_iff.mpr hcand, rfl⟩
  · simp only [detectFrequentValues]
    have hpw := sortBy_pairwise savingsGe savingsGe_total savingsGe_trans
      (dictCandidates (dfvVal v []))
    apply assignTags_pairwise _ 0 hpw
    intro c d hc hd hcd t u
    obtain ⟨hlc, hcntc, hsavc, _, _⟩ := hB c ((sortBy_perm _ _).mem_iff.mp hc)
    obtain ⟨hld, hcntd, hsavd, _, _⟩ := hB d ((sortBy_perm _ _).mem_iff.mp hd)
    simp only [savingsGe, decide_eq_true_eq] at hcd
    show dictSavings (d.value).length (specObjValCount d.value v)
      ≤ dictSavings (c.value).length (specObjValCount c.value v)
    rw [← hcntc, ← hcntd, ← hsavc, ← hsavd]
    exact hcd
  · intro i hi
    simp only [detectFrequentValues] at hi ⊢
    have hg := assignTags_getD (sortBy savingsGe (dictCandidates (dfvVal v []))) 0 i (by
      rwa [assignTags_length] at hi)
    simpa using hg

/-- Witness for C6 at a concrete tree: `{"k1":"abcdef","k2":"abcdef","k3":"abcdef"}`
has a dictionary entry for `abcdef`, tagged `#0`. -/
theorem c6_dictionary_entry_condition_witness :
    (jmGet (detectFrequentValues c5Input) (jstr "abcdef")).isSome = true ∧
    ((detectFrequentValues c5Input).getD 0 ([], [])).2 = '#' :: natRepr 0 :=
  ⟨((c6_dictionary_entry_condition c5Input).1 (jstr "abcdef")).mpr (by decide),
   (c6_dictionary_entry_condition c5Input).2.2 0 (by decide)⟩

/-! ### Claim C10: symbolic evaluation lemmas and theorems -/

theorem jsSplit_ne_nil (sep : Char) (s : JStr) : jsSplit sep s ≠ [] := by
  induction s with
  | nil => simp [jsSplit]
  | cons c cs ih =>
      rw [jsSplit]
      by_cases h : c = sep
      · simp [h]
      · rw [if_neg h]
        cases hs : jsSplit sep cs with
        | nil => exact absurd hs ih
        | cons r rs => simp

theorem jsSplit_append (sep : Char) (a b : JStr) (h : ∀ c ∈ a, ¬ c = sep) :
    jsSplit sep (a ++ b) = (a ++ (jsSplit sep b).headD []) :: (jsSplit sep b).tail := by
  induction a with
  | nil =>
      simp only [List.nil_append]
      cases hs : jsSplit sep b with
      | nil => exact absurd hs (jsSplit_ne_nil sep b)
      | cons r rs => simp
  | cons c rest ih =>
      rw [List.cons_append, jsSplit,
        if_neg (h c (List.mem_cons_self _ _)),
        ih (fun d hd => h d (List.mem_cons_of_mem _ hd))]
      simp

theorem jsTrimEnd_append (a b : JStr) (h : jsTrimEnd b ≠ []) :
    jsTrimEnd (a ++ b) = a ++ jsTrimEnd b := by
  induction a with
  | nil => simp
  | cons c rest ih =>
      rw [List.cons_append, jsTrimEnd, ih]
      have : ¬ (rest ++ jsTrimEnd b = [] ∧ jsIsSpace c = true) := by
        rintro ⟨h1, _⟩
        exact h (List.append_eq_nil.mp h1).2
      rw [if_neg this, List.cons_append]

theorem digit_ne (d x : Char) (hd : jsIsDigit d = true) (hx : jsIsDigit x = false) :
    ¬ x = d := by
  intro he
  rw [he] at hx
  rw [hd] at hx
  cases hx

theorem jsIncludes_digits (ds r : JStr) (h : ∀ c ∈ ds, jsIsDigit c = true) :
    jsIncludes (jstr "]@") (ds ++ ']' :: '@' :: r) = true := by
  induction ds with
  | nil =>
      simp only [List.nil_append]
      rw [jsIncludes]
      have h1 : jsStartsWith (jstr "]@") (']' :: '@' :: r) = true := by
        have e : jstr "]@" = [']', '@'] := rfl
        rw [e]
        simp [jsStartsWith]
      rw [h1, Bool.true_or]
  | cons d rest ih =>
      rw [List.cons_append, jsIncludes]
      have hne : ¬ (']' = d) :=
        digit_ne d ']' (h d (List.mem_cons_self _ _)) (by decide)
      have h1 : jsStartsWith (jstr "]@") (d :: (rest ++ ']' :: '@' :: r)) = false := by
        have e : jstr "]@" = [']', '@'] := rfl
        rw [e, jsStartsWith]
        simp [hne]
      rw [h1, Bool.false_or]
      exact ih fun c hc => h c (List.mem_cons_of_mem _ hc)

theorem jsIndexOf_digits (ds r : JStr) (t : Char) (ht : jsIsDigit t = false)
    (h : ∀ c ∈ ds, jsIsDigit c = true) :
    jsIndexOf t (ds ++ t :: r) = (ds.length : Int) := by
  induction ds with
  | nil => simp [jsIndexOf]
  | cons d rest ih =>
      rw [List.cons_append, jsIndexOf]
      have hne : ¬ (d = t) := by
        intro he
        have := h d (List.mem_cons_self _ _)
        rw [he, ht] at this
        cases this
      rw [if_neg hne, ih fun c hc => h c (List.mem_cons_of_mem _ hc)]
      have hlen : ¬ ((rest.length : Int) = -1) := by omega
      rw [if_neg hlen]
      simp

theorem c10_split (ds : JStr) (hds : ∀ c ∈ ds, jsIsDigit c = true) :
    jsSplit '\n' (c10Text ds) = c10Line0 ds :: c10Rows := by
  have h1 : c10Text ds = jstr "users:[" ++ (ds ++ jstr "]@id,name\n 1,Alice\n 2,Bob\n 3,Caro") := by
    rw [c10Text, List.append_assoc]
  rw [h1, jsSplit_append '\n' _ _ (by decide),
    jsSplit_append '\n' ds _ (fun c hc => digit_ne c '\n' (hds c hc) (by decide) ∘ Eq.symm)]
  rfl

theorem c10_trim_line0 (ds : JStr) : jsTrim (c10Line0 ds) = c10Line0 ds := by
  have e : c10Line0 ds = (jstr "users:[" ++ ds) ++ jstr "]@id,name" := rfl
  rw [e, jsTrim]
  have h1 : jsTrimStart ((jstr "users:[" ++ ds) ++ jstr "]@id,name")
      = (jstr "users:[" ++ ds) ++ jstr "]@id,name" := rfl
  rw [h1, jsTrimEnd_append _ _ (by decide)]
  rfl

theorem c10_trim_rest (ds : JStr) : jsTrim (c10Rest ds) = c10Rest ds := by
  have e : c10Rest ds = (jstr "[" ++ ds) ++ jstr "]@id,name" := rfl
  rw [e, jsTrim]
  have h1 : jsTrimStart ((jstr "[" ++ ds) ++ jstr "]@id,name")
      = (jstr "[" ++ ds) ++ jstr "]@id,name" := rfl
  rw [h1, jsTrimEnd_append _ _ (by decide)]
  rfl

theorem c10_includes (ds : JStr) (hds : ∀ c ∈ ds, jsIsDigit c = true) :
    jsIncludes (jstr "]@") (c10Rest ds) = true := by
  rw [c10Rest, jsIncludes]
  have h1 : jsStartsWith (jstr "]@") ('[' :: (ds ++ jstr "]@id,name")) = false := rfl
  rw [h1, Bool.false_or]
  have e : ds ++ jstr "]@id,name" = ds ++ ']' :: '@' :: jstr "id,name" := rfl
  rw [e]
  exact jsIncludes_digits ds (jstr "id,name") hds

theorem c10_indexOf (ds : JStr) (hds : ∀ c ∈ ds, jsIsDigit c = true) :
    jsIndexOf ']' (c10Rest ds) = (ds.length : Int) + 1 := by
  rw [c10Rest, jsIndexOf]
  rw [if_neg (by decide : ¬ ('[' = ']'))]
  have e : ds ++ jstr "]@id,name" = ds ++ ']' :: jstr "@id,name" := rfl
  rw [e, jsIndexOf_digits ds (jstr "@id,name") ']' (by decide) hds]
  simp only []
  rw [if_neg (by omega : ¬ ((ds.length : Int) = -1))]

theorem drop_digits1 (ds r : JStr) :
    List.drop (ds.length + 1) (ds ++ r) = List.drop 1 r := by
  induction ds with
  | nil => simp
  | cons d rest ih =>
      simp only [List.length_cons, List.cons_append, List.drop_succ_cons]
      exact ih

theorem c10_indent0 (ds : JStr) : getIndent (c10Line0 ds) = 0 := by
  rw [getIndent, c10_trim_line0]
  rw [if_neg (by simp [c10Line0])]
  rfl

theorem c10_parseObject (ds : JStr) (hds : ∀ c ∈ ds, jsIsDigit c = true) :
    parseObject defaultCfg 63 c10ST (c10Line0 ds :: c10Rows) 0 (-1) []
      = .ok (c10Expected, c10ST, 4) := by
  have hind : getIndent ((c10Line0 ds :: c10Rows).getD 0 []) = 0 := c10_indent0 ds
  have hcontent : jsTrim ((c10Line0 ds :: c10Rows).getD 0 []) = c10Line0 ds :=
    c10_trim_line0 ds
  have hrest : jsTrim (jsSliceFrom (c10Line0 ds) ((jsIndexOf ':' (c10Line0 ds)).toNat + 1))
      = c10Rest ds := c10_trim_rest ds
  have hinc : jsIncludes (jstr "]@") (c10Rest ds) = true := c10_includes ds hds
  have hidx : jsIndexOf ']' (c10Rest ds) = (ds.length : Int) + 1 := c10_indexOf ds hds
  show parseObject defaultCfg (62 + 1) c10ST (c10Line0 ds :: c10Rows) 0 (-1) [] = _
  rw [parseObject]
  rw [if_neg (by simp [c10Rows] : ¬ ((0:Nat) ≥ (c10Line0 ds :: c10Rows).length))]
  simp only []
  simp only [hind, hcontent, hrest, hinc, hidx]
  have hgt : ((List.length ds : Int) + 1 > 0) = True := eq_true (by omega)
  have hsl : jsSliceFrom (c10Rest ds) (((List.length ds : Int) + 1).toNat + 1)
      = jstr "@id,name" := by
    have ht : (((List.length ds : Int) + 1).toNat + 1) = ds.length + 1 + 1 := by omega
    rw [ht, c10Rest, jsSliceFrom, List.drop_succ_cons, drop_digits1]
    rfl
  simp only [hgt, ite_true, hsl]
  rfl

theorem c10_parseValue (ds : JStr) (hds : ∀ c ∈ ds, jsIsDigit c = true) :
    parseValue defaultCfg 64 ⟨some [], some [], some []⟩ (c10Line0 ds :: c10Rows) 0 (-1)
      = .ok (c10Expected, c10ST, 4) := by
  have hind : getIndent ((c10Line0 ds :: c10Rows).getD 0 []) = 0 := c10_indent0 ds
  have hcontent : jsTrim ((c10Line0 ds :: c10Rows).getD 0 []) = c10Line0 ds :=
    c10_trim_line0 ds
  show parseValue defaultCfg (63 + 1) c10ST (c10Line0 ds :: c10Rows) 0 (-1) = _
  rw [parseValue]
  rw [if_neg (by simp [c10Rows] : ¬ ((0:Nat) ≥ (c10Line0 ds :: c10Rows).length))]
  simp only []
  simp only [hind, hcontent]
  rw [c10_parseObject ds hds]
  rfl

theorem c10_decompress (ds : JStr) (hds : ∀ c ∈ ds, jsIsDigit c = true) :
    decompress defaultCfg (c10Text ds) = .ok c10Expected := by
  have hcontent : jsTrim ((c10Line0 ds :: c10Rows).getD 0 []) = c10Line0 ds :=
    c10_trim_line0 ds
  have hne : ¬ (c10Line0 ds = jstr "$def:") := by
    intro h
    have h2 := congrArg (fun l => l.headD ' ') h
    simp only [] at h2
    have e1 : (c10Line0 ds).headD ' ' = 'u' := rfl
    rw [e1] at h2
    exact absurd h2 (by decide)
  unfold decompress
  rw [c10_split ds hds]
  simp only []
  simp only [hcontent]
  rw [if_neg hne]
  simp only [parseLines]
  rw [show ((c10Line0 ds :: c10Rows).length + 4) * ((c10Line0 ds :: c10Rows).length + 4)
        = 64 from rfl]
  rw [c10_parseValue ds hds]
  rfl

/-- Claim C10, counterexample: a table block headed by the combined form
`[N]$ref` is never recognized as a table header — the decoder's dispatch
requires a leading `@` or `$`, or a `]@` substring, and `[2]$0` has none of
these — so the line parses as a plain scalar string rather than as the
two-row sequence its rows describe. -/

theorem c10_counterexample_bracket_ref_not_a_table :
    decompress defaultCfg c10BadText = .ok (.str (jstr "[2]$0")) ∧
    Val.str (jstr "[2]$0") ≠ Val.arr c10RefElems :=
  ⟨rfl, by simp⟩

/-- Claim C10 (amended): for `[N]@keys` table headers — as a key's inline
value (proved for every digit string `N`) or standalone — and for bare
`$ref` headers, `decompress` ignores the declared element count `N`: it
consumes every following more-indented data row and returns a sequence
whose length equals the number of rows actually present, raising no error
and adding no padding.  The combined `[N]$ref` form of the claim is not a
table header at all (see the counterexample). -/

theorem c10_declared_count_ignored :
    (∀ ds : JStr, (∀ c ∈ ds, jsIsDigit c = true) →
      decompress defaultCfg (c10Text ds) = .ok c10Expected) ∧
    decompress defaultCfg (jstr "[7]@a,b\n 1,2\n 3,4") = .ok (.arr c10RefElems) ∧
    decompress defaultCfg (jstr "$def:\n $0:@a,b\n$data:\n $$0\n  1,2\n  3,4")
      = .ok (.arr c10RefElems) :=
  ⟨fun ds hds => c10_decompress ds hds, rfl, rfl⟩

/-- Witness for the amended Claim C10 theorem at the concrete count 42:
the three-row table under a `[42]@id,name` header decodes to a three-element
sequence. -/

theorem c10_declared_count_ignored_witness :
    decompress defaultCfg (c10Text (jstr "42")) = .ok c10Expected :=
  c10_declared_count_ignored.1 (jstr "42") (by decide)
